import Mathlib

/-!
Verification of the permit-protocol core of the `fogo-ambient` repository.

The embedding follows the TypeScript sources:
* `src/unnamed/part_002` (the `types.ts` module): data model, borsh schemas and
  `encodePermitEnvelope`;
* `src/app/ambient/permit/signer.ts`: `generatePermitSignature`,
  `PermitSigner.sign`, `PermitSigner.signWithSession`,
  `PermitSigner.createEd25519Instruction`;
* `src/app/ambient/permit/hyperliquid.ts`: the exchange adapter
  (`decimalToFixed`, `toTimeInForceValue`, `ensureClientId`,
  `buildPermitActions`, `buildPermitEnvelopesFromExchangeRequest`).

Bytes are modelled as `Nat` values below 256 in `List Nat`; JavaScript
`bigint` values are `Int`; JavaScript strings are Lean `String`.  Wall-clock
time (`Date.now()`) is passed explicitly as a millisecond parameter.
-/

namespace Permit

/-- A 32-byte address (`PublicKey` in the source), kept as its byte list. -/
abbrev Pubkey := List Nat

/-- `enum KeyType { Ed25519 = 0, Secp256k1 = 1 }` (src/unnamed/part_002). -/
inductive KeyType where
  | Ed25519
  | Secp256k1
deriving DecidableEq, Repr

/-- Wire discriminant of a `KeyType`. -/
def KeyType.code : KeyType → Nat
  | .Ed25519 => 0
  | .Secp256k1 => 1

/-- `enum ClusterType { Mainnet = 0, Testnet = 1, Devnet = 2, Localnet = 3 }`. -/
inductive ClusterType where
  | Mainnet
  | Testnet
  | Devnet
  | Localnet
deriving DecidableEq, Repr

/-- Wire discriminant of a `ClusterType`. -/
def ClusterType.code : ClusterType → Nat
  | .Mainnet => 0
  | .Testnet => 1
  | .Devnet => 2
  | .Localnet => 3

/-- `enum HealthMetric { Initial = 0, Maintenance = 1, RatioBps = 2 }`. -/
inductive HealthMetric where
  | Initial
  | Maintenance
  | RatioBps
deriving DecidableEq, Repr

/-- Wire discriminant of a `HealthMetric`. -/
def HealthMetric.code : HealthMetric → Nat
  | .Initial => 0
  | .Maintenance => 1
  | .RatioBps => 2

/-- `interface HealthFloor { metric: HealthMetric; min: bigint }`. -/
structure HealthFloor where
  metric : HealthMetric
  min : Int
deriving DecidableEq, Repr

/-- The `ReplayMode` tagged union (src/unnamed/part_002): `Sequence{expected}`,
`Nonce{salt}`, `Allowance{id}`, `HlWindow{k}`. -/
inductive ReplayMode where
  | Sequence (expected : Int)
  | Nonce (salt : List Nat)
  | Allowance (ident : List Nat)
  | HlWindow (k : Nat)
deriving DecidableEq, Repr

/-- The `TimeInForceValue` tagged union: only `GTT` carries a payload.  The
variant order matches `TimeInForceCode { IOC = 0, FOK = 1, GTC = 2, ALO = 3,
GTT = 4 }` and the `tifSchema` `rustEnum` order. -/
inductive TimeInForceValue where
  | IOC
  | FOK
  | GTC
  | ALO
  | GTT (timestamp : Int)
deriving DecidableEq, Repr

/-- The `PermitAction` tagged union.  Constructor order matches the
`permitActionSchema` `rustEnum` order (discriminants 0–8), which coincides
with `enum PermitActionType`.  `bigint` fields are `Int`; JavaScript `number`
fields (`side`, `triggerType`) are `Nat`; `targetLeverageBps` is `Int`
because the adapter can produce negative values (see `buildPermitActions`). -/
inductive PermitAction where
  | Place (marketId clientId : Int) (side : Nat) (qty : Int) (price : Option Int)
      (tif : TimeInForceValue) (reduceOnly : Bool) (triggerPrice : Option Int)
      (triggerType : Nat) (healthFloor : Option HealthFloor)
  | CancelById (marketId orderId : Int)
  | CancelByClientId (marketId clientId : Int)
  | CancelAll (marketId : Option Int)
  | Modify (marketId cancelOrderId newClientId : Int) (side : Nat) (qty : Int)
      (price : Option Int) (tif : TimeInForceValue) (reduceOnly : Bool)
      (triggerPrice : Option Int) (triggerType : Nat) (healthFloor : Option HealthFloor)
  | Withdraw (amount : Int) (toOwner : Pubkey) (healthFloor : Option HealthFloor)
  | SetLeverage (marketId : Int) (targetLeverageBps : Int) (healthFloor : Option HealthFloor)
  | Noop
  | Faucet (marketId amount : Int) (recipient : Pubkey)
deriving DecidableEq, Repr

/-- `interface PermitDomain { programId: PublicKey; version: number;
cluster: ClusterType }`. -/
structure PermitDomain where
  programId : Pubkey
  version : Nat
  cluster : ClusterType
deriving DecidableEq, Repr

/-- `interface PermitEnvelopeV1` — the signed unit (src/unnamed/part_002). -/
structure PermitEnvelopeV1 where
  domain : PermitDomain
  authorizer : Pubkey
  keyType : KeyType
  action : PermitAction
  mode : ReplayMode
  expiresUnix : Int
  maxFeeQuote : Int
  relayer : Option Pubkey
  nonce : Int
deriving DecidableEq, Repr

/-! ## Encoding (borsh, from `permitEnvelopeSchema` and `encodePermitEnvelope`)

Borsh writes fixed-width little-endian integers, a single discriminant byte in
front of each `rustEnum` payload, `Option` as a presence byte in `{0,1}`
followed by the payload, and `bool` as one byte.  Numeric fields that exceed
their declared width make the source throw (a builder-level validation error,
per spec §4.1); the embedding instead reduces modulo the width, and the
round-trip theorem is stated for in-range (`validEnvelope`) values. -/

/-- `w` little-endian base-256 digits of `n`. -/
def natLE : Nat → Nat → List Nat
  | 0, _ => []
  | w + 1, n => n % 256 :: natLE w (n / 256)

/-- Fixed-width little-endian encoding of an integer, two's complement modulo
`2 ^ (8 * w)` (this is the borsh `i64` encoding; `u64`/`u128` fields are
nonnegative and in range for valid envelopes). -/
def intLE (w : Nat) (v : Int) : List Nat :=
  natLE w (v % ((2 : Int) ^ (8 * w))).toNat

/-- A single `u8` byte. -/
def u8Byte (n : Nat) : List Nat := [n % 256]

/-- borsh `bool`: one byte, 0 or 1. -/
def boolByte (b : Bool) : List Nat := [if b then 1 else 0]

/-- borsh `option(T)`: presence byte followed by the payload if present. -/
def optBytes (f : α → List Nat) : Option α → List Nat
  | none => [0]
  | some a => 1 :: f a

/-- `healthFloorSchema`: `u8 metric`, `i64 min`. -/
def encodeHealthFloor (h : HealthFloor) : List Nat :=
  u8Byte h.metric.code ++ intLE 8 h.min

/-- `tifSchema` (`rustEnum`): discriminant byte, then `u64 timestamp` for GTT. -/
def encodeTif : TimeInForceValue → List Nat
  | .IOC => [0]
  | .FOK => [1]
  | .GTC => [2]
  | .ALO => [3]
  | .GTT timestamp => 4 :: intLE 8 timestamp

/-- `replayModeSchema` (`rustEnum`): `Sequence{u64}`, `Nonce{[u8;32]}`,
`Allowance{[u8;32]}`, `HlWindow{u8}`. -/
def encodeReplayMode : ReplayMode → List Nat
  | .Sequence expected => 0 :: intLE 8 expected
  | .Nonce salt => 1 :: salt
  | .Allowance ident => 2 :: ident
  | .HlWindow k => 3 :: u8Byte k

/-- `permitActionSchema` (`rustEnum`, discriminants 0–8), field order exactly
as in the schema's `borsh.struct` lists. -/
def encodePermitAction : PermitAction → List Nat
  | .Place marketId clientId side qty price tif reduceOnly triggerPrice triggerType healthFloor =>
      0 :: (intLE 8 marketId ++ intLE 16 clientId ++ u8Byte side ++ intLE 8 qty
        ++ optBytes (intLE 8) price ++ encodeTif tif ++ boolByte reduceOnly
        ++ optBytes (intLE 8) triggerPrice ++ u8Byte triggerType
        ++ optBytes encodeHealthFloor healthFloor)
  | .CancelById marketId orderId => 1 :: (intLE 8 marketId ++ intLE 8 orderId)
  | .CancelByClientId marketId clientId => 2 :: (intLE 8 marketId ++ intLE 16 clientId)
  | .CancelAll marketId => 3 :: optBytes (intLE 8) marketId
  | .Modify marketId cancelOrderId newClientId side qty price tif reduceOnly triggerPrice triggerType healthFloor =>
      4 :: (intLE 8 marketId ++ intLE 8 cancelOrderId ++ intLE 16 newClientId
        ++ u8Byte side ++ intLE 8 qty ++ optBytes (intLE 8) price ++ encodeTif tif
        ++ boolByte reduceOnly ++ optBytes (intLE 8) triggerPrice ++ u8Byte triggerType
        ++ optBytes encodeHealthFloor healthFloor)
  | .Withdraw amount toOwner healthFloor =>
      5 :: (intLE 8 amount ++ toOwner ++ optBytes encodeHealthFloor healthFloor)
  | .SetLeverage marketId targetLeverageBps healthFloor =>
      6 :: (intLE 8 marketId ++ intLE 2 targetLeverageBps
        ++ optBytes encodeHealthFloor healthFloor)
  | .Noop => [7]
  | .Faucet marketId amount recipient =>
      8 :: (intLE 8 marketId ++ intLE 8 amount ++ recipient)

/-- `permitDomainSchema`: `publicKey programId`, `u8 cluster`, `u8 version` —
note the schema writes the cluster byte BEFORE the version byte. -/
def encodePermitDomain (d : PermitDomain) : List Nat :=
  d.programId ++ u8Byte d.cluster.code ++ u8Byte d.version

/-- `encodePermitEnvelope` (src/unnamed/part_002): `permitEnvelopeSchema` field
order — domain, authorizer, keyType, action, mode, `i64 expiresUnix`,
`u64 maxFeeQuote`, `option(publicKey) relayer` (`envelope.relayer ?? null`),
`u64 nonce`. -/
def encodePermitEnvelope (e : PermitEnvelopeV1) : List Nat :=
  encodePermitDomain e.domain ++ e.authorizer ++ u8Byte e.keyType.code
    ++ encodePermitAction e.action ++ encodeReplayMode e.mode
    ++ intLE 8 e.expiresUnix ++ intLE 8 e.maxFeeQuote
    ++ optBytes (fun p => p) e.relayer ++ intLE 8 e.nonce

/-! ## Validity (declared widths of the schema fields) -/

/-- In range for a borsh `u64` field. -/
def u64ok (v : Int) : Bool := decide (0 ≤ v) && decide (v < 2 ^ 64)

/-- In range for a borsh `u128` field. -/
def u128ok (v : Int) : Bool := decide (0 ≤ v) && decide (v < 2 ^ 128)

/-- In range for a borsh `i64` field. -/
def i64ok (v : Int) : Bool := decide (-(2 ^ 63) ≤ v) && decide (v < 2 ^ 63)

/-- In range for a borsh `u16` field. -/
def u16ok (v : Int) : Bool := decide (0 ≤ v) && decide (v < 2 ^ 16)

/-- A well-formed 32-byte array. -/
def bytes32ok (b : List Nat) : Bool := b.length == 32 && b.all (· < 256)

/-- Valid `HealthFloor`: `min` fits `i64`. -/
def validHealthFloor (h : HealthFloor) : Bool := i64ok h.min

/-- Valid time in force: a GTT timestamp fits `u64`. -/
def validTif : TimeInForceValue → Bool
  | .GTT timestamp => u64ok timestamp
  | _ => true

/-- Valid replay mode: payloads fit their declared widths. -/
def validMode : ReplayMode → Bool
  | .Sequence expected => u64ok expected
  | .Nonce salt => bytes32ok salt
  | .Allowance ident => bytes32ok ident
  | .HlWindow k => k < 256

/-- Valid action: every field fits its declared schema width. -/
def validAction : PermitAction → Bool
  | .Place marketId clientId side qty price tif _ triggerPrice triggerType healthFloor =>
      u64ok marketId && u128ok clientId && decide (side < 256) && u64ok qty
        && price.all u64ok && validTif tif && triggerPrice.all u64ok
        && decide (triggerType < 256) && healthFloor.all validHealthFloor
  | .CancelById marketId orderId => u64ok marketId && u64ok orderId
  | .CancelByClientId marketId clientId => u64ok marketId && u128ok clientId
  | .CancelAll marketId => marketId.all u64ok
  | .Modify marketId cancelOrderId newClientId side qty price tif _ triggerPrice triggerType healthFloor =>
      u64ok marketId && u64ok cancelOrderId && u128ok newClientId
        && decide (side < 256) && u64ok qty && price.all u64ok && validTif tif
        && triggerPrice.all u64ok && decide (triggerType < 256)
        && healthFloor.all validHealthFloor
  | .Withdraw amount toOwner healthFloor =>
      u64ok amount && bytes32ok toOwner && healthFloor.all validHealthFloor
  | .SetLeverage marketId targetLeverageBps healthFloor =>
      u64ok marketId && u16ok targetLeverageBps && healthFloor.all validHealthFloor
  | .Noop => true
  | .Faucet marketId amount recipient =>
      u64ok marketId && u64ok amount && bytes32ok recipient

/-- Valid envelope: every field fits its declared schema width. -/
def validEnvelope (e : PermitEnvelopeV1) : Bool :=
  bytes32ok e.domain.programId && decide (e.domain.version < 256)
    && bytes32ok e.authorizer && validAction e.action && validMode e.mode
    && i64ok e.expiresUnix && u64ok e.maxFeeQuote
    && e.relayer.all bytes32ok && u64ok e.nonce

/-! ## Decoding -/

/-- Modelled from the spec: the codec's `decode(bytes) -> envelope | DecodeError`
(§4.1) is not implemented under `src/` (only `encodePermitEnvelope` and the
borsh schemas are); this decoder follows the spec's decoding rules — the exact
inverse of the §4.1 field order, failing on truncated input, unknown
discriminants, and option/bool bytes outside `{0,1}`.  Read one byte. -/
def readByte : List Nat → Option (Nat × List Nat)
  | [] => none
  | b :: r => some (b, r)

/-- Read a fixed-width chunk of `w` bytes, failing on truncated input. -/
def readChunk (w : Nat) (l : List Nat) : Option (List Nat × List Nat) :=
  if w ≤ l.length then some (l.take w, l.drop w) else none

/-- Value of a little-endian base-256 digit list. -/
def leVal : List Nat → Nat
  | [] => 0
  | b :: r => b + 256 * leVal r

/-- Read a `w`-byte little-endian unsigned integer. -/
def readUnsigned (w : Nat) (l : List Nat) : Option (Int × List Nat) :=
  (readChunk w l).map fun p => ((leVal p.1 : Int), p.2)

/-- Read an `i64` (8-byte little-endian two's complement). -/
def readI64 (l : List Nat) : Option (Int × List Nat) :=
  (readChunk 8 l).map fun p =>
    (if leVal p.1 < 2 ^ 63 then (leVal p.1 : Int) else (leVal p.1 : Int) - 2 ^ 64, p.2)

/-- Read a borsh `bool` byte (the spec: boolean fields use a single 0/1 byte). -/
def readBool : List Nat → Option (Bool × List Nat)
  | 0 :: r => some (false, r)
  | 1 :: r => some (true, r)
  | _ => none

/-- Read a borsh `option(T)`: presence byte in `{0,1}` then the payload. -/
def readOpt (f : List Nat → Option (α × List Nat)) (l : List Nat) :
    Option (Option α × List Nat) :=
  match l with
  | 0 :: r => some (none, r)
  | 1 :: r => (f r).map fun p => (some p.1, p.2)
  | _ => none

/-- Read a 32-byte public key. -/
def readPubkey (l : List Nat) : Option (Pubkey × List Nat) := readChunk 32 l

/-- Read a `KeyType` discriminant byte. -/
def readKeyType (l : List Nat) : Option (KeyType × List Nat) := do
  let (b, r) ← readByte l
  match b with
  | 0 => some (.Ed25519, r)
  | 1 => some (.Secp256k1, r)
  | _ => none

/-- Read a `ClusterType` discriminant byte. -/
def readCluster (l : List Nat) : Option (ClusterType × List Nat) := do
  let (b, r) ← readByte l
  match b with
  | 0 => some (.Mainnet, r)
  | 1 => some (.Testnet, r)
  | 2 => some (.Devnet, r)
  | 3 => some (.Localnet, r)
  | _ => none

/-- Read a `HealthMetric` discriminant byte. -/
def readMetric (l : List Nat) : Option (HealthMetric × List Nat) := do
  let (b, r) ← readByte l
  match b with
  | 0 => some (.Initial, r)
  | 1 => some (.Maintenance, r)
  | 2 => some (.RatioBps, r)
  | _ => none

/-- Read a `HealthFloor` (`u8 metric`, `i64 min`). -/
def readHealthFloor (l : List Nat) : Option (HealthFloor × List Nat) := do
  let (metric, l) ← readMetric l
  let (min, l) ← readI64 l
  some (⟨metric, min⟩, l)

/-- Read a `TimeInForceValue` (discriminant byte, `u64 timestamp` for GTT). -/
def readTif (l : List Nat) : Option (TimeInForceValue × List Nat) := do
  let (b, r) ← readByte l
  match b with
  | 0 => some (.IOC, r)
  | 1 => some (.FOK, r)
  | 2 => some (.GTC, r)
  | 3 => some (.ALO, r)
  | 4 => do
    let (timestamp, r) ← readUnsigned 8 r
    some (.GTT timestamp, r)
  | _ => none

/-- Read a `ReplayMode`. -/
def readReplayMode (l : List Nat) : Option (ReplayMode × List Nat) := do
  let (b, r) ← readByte l
  match b with
  | 0 => do
    let (expected, r) ← readUnsigned 8 r
    some (.Sequence expected, r)
  | 1 => do
    let (salt, r) ← readChunk 32 r
    some (.Nonce salt, r)
  | 2 => do
    let (ident, r) ← readChunk 32 r
    some (.Allowance ident, r)
  | 3 => do
    let (k, r) ← readByte r
    some (.HlWindow k, r)
  | _ => none

/-- Read the `Place` variant's field list. -/
def readPlaceBody (l : List Nat) : Option (PermitAction × List Nat) := do
  let (marketId, l) ← readUnsigned 8 l
  let (clientId, l) ← readUnsigned 16 l
  let (side, l) ← readByte l
  let (qty, l) ← readUnsigned 8 l
  let (price, l) ← readOpt (readUnsigned 8) l
  let (tif, l) ← readTif l
  let (reduceOnly, l) ← readBool l
  let (triggerPrice, l) ← readOpt (readUnsigned 8) l
  let (triggerType, l) ← readByte l
  let (healthFloor, l) ← readOpt readHealthFloor l
  some (.Place marketId clientId side qty price tif reduceOnly triggerPrice triggerType healthFloor, l)

/-- Read the `Modify` variant's field list. -/
def readModifyBody (l : List Nat) : Option (PermitAction × List Nat) := do
  let (marketId, l) ← readUnsigned 8 l
  let (cancelOrderId, l) ← readUnsigned 8 l
  let (newClientId, l) ← readUnsigned 16 l
  let (side, l) ← readByte l
  let (qty, l) ← readUnsigned 8 l
  let (price, l) ← readOpt (readUnsigned 8) l
  let (tif, l) ← readTif l
  let (reduceOnly, l) ← readBool l
  let (triggerPrice, l) ← readOpt (readUnsigned 8) l
  let (triggerType, l) ← readByte l
  let (healthFloor, l) ← readOpt readHealthFloor l
  some (.Modify marketId cancelOrderId newClientId side qty price tif reduceOnly triggerPrice triggerType healthFloor, l)

/-- Read the `CancelById` variant's field list. -/
def readCancelByIdBody (l : List Nat) : Option (PermitAction × List Nat) := do
  let (marketId, l) ← readUnsigned 8 l
  let (orderId, l) ← readUnsigned 8 l
  some (.CancelById marketId orderId, l)

/-- Read the `CancelByClientId` variant's field list. -/
def readCancelByClientIdBody (l : List Nat) : Option (PermitAction × List Nat) := do
  let (marketId, l) ← readUnsigned 8 l
  let (clientId, l) ← readUnsigned 16 l
  some (.CancelByClientId marketId clientId, l)

/-- Read the `CancelAll` variant's field list. -/
def readCancelAllBody (l : List Nat) : Option (PermitAction × List Nat) := do
  let (marketId, l) ← readOpt (readUnsigned 8) l
  some (.CancelAll marketId, l)

/-- Read the `Withdraw` variant's field list. -/
def readWithdrawBody (l : List Nat) : Option (PermitAction × List Nat) := do
  let (amount, l) ← readUnsigned 8 l
  let (toOwner, l) ← readPubkey l
  let (healthFloor, l) ← readOpt readHealthFloor l
  some (.Withdraw amount toOwner healthFloor, l)

/-- Read the `SetLeverage` variant's field list. -/
def readSetLeverageBody (l : List Nat) : Option (PermitAction × List Nat) := do
  let (marketId, l) ← readUnsigned 8 l
  let (targetLeverageBps, l) ← readUnsigned 2 l
  let (healthFloor, l) ← readOpt readHealthFloor l
  some (.SetLeverage marketId targetLeverageBps healthFloor, l)

/-- Read the `Faucet` variant's field list. -/
def readFaucetBody (l : List Nat) : Option (PermitAction × List Nat) := do
  let (marketId, l) ← readUnsigned 8 l
  let (amount, l) ← readUnsigned 8 l
  let (recipient, l) ← readPubkey l
  some (.Faucet marketId amount recipient, l)

/-- Read a `PermitAction` (discriminant 0–8, then the variant's field list). -/
def readAction (l : List Nat) : Option (PermitAction × List Nat) := do
  let (b, l) ← readByte l
  match b with
  | 0 => readPlaceBody l
  | 1 => readCancelByIdBody l
  | 2 => readCancelByClientIdBody l
  | 3 => readCancelAllBody l
  | 4 => readModifyBody l
  | 5 => readWithdrawBody l
  | 6 => readSetLeverageBody l
  | 7 => some (.Noop, l)
  | 8 => readFaucetBody l
  | _ => none

/-- Read a whole `PermitEnvelopeV1` in `permitEnvelopeSchema` field order
(domain = programId, cluster, version; then authorizer, keyType, action, mode,
expiresUnix, maxFeeQuote, relayer, nonce). -/
def readEnvelope (l : List Nat) : Option (PermitEnvelopeV1 × List Nat) := do
  let (programId, l) ← readPubkey l
  let (cluster, l) ← readCluster l
  let (version, l) ← readByte l
  let (authorizer, l) ← readPubkey l
  let (keyType, l) ← readKeyType l
  let (action, l) ← readAction l
  let (mode, l) ← readReplayMode l
  let (expiresUnix, l) ← readI64 l
  let (maxFeeQuote, l) ← readUnsigned 8 l
  let (relayer, l) ← readOpt readPubkey l
  let (nonce, l) ← readUnsigned 8 l
  some (⟨⟨programId, version, cluster⟩, authorizer, keyType, action, mode,
    expiresUnix, maxFeeQuote, relayer, nonce⟩, l)

/-- Modelled from the spec: `decode(bytes) -> envelope | DecodeError` — parse a
full envelope and require the input to be exactly consumed; `none` plays the
role of `MalformedEnvelope`. -/
def decodePermitEnvelope (l : List Nat) : Option PermitEnvelopeV1 := do
  let (e, rest) ← readEnvelope l
  if rest = [] then some e else none

/-! ## Round-trip lemmas -/

theorem natLE_length (w n : Nat) : (natLE w n).length = w := by
  induction w generalizing n with
  | zero => rfl
  | succ w ih => simp [natLE, ih]

theorem leVal_natLE (w n : Nat) (h : n < 256 ^ w) : leVal (natLE w n) = n := by
  induction w generalizing n with
  | zero =>
    have : n = 0 := by simpa using h
    simp [natLE, leVal, this]
  | succ w ih =>
    have hdiv : n / 256 < 256 ^ w := by
      rw [Nat.div_lt_iff_lt_mul (by norm_num)]
      calc n < 256 ^ (w + 1) := h
        _ = 256 ^ w * 256 := by rw [pow_succ]
    simp only [natLE, leVal, ih _ hdiv]
    omega

theorem pow256_eq (w : Nat) : (256 : Nat) ^ w = 2 ^ (8 * w) := by
  calc (256 : Nat) ^ w = (2 ^ 8) ^ w := by norm_num
    _ = 2 ^ (8 * w) := by rw [← pow_mul]

theorem readChunk_append (l r : List Nat) (w : Nat) (h : l.length = w) :
    readChunk w (l ++ r) = some (l, r) := by
  subst h
  simp [readChunk, List.take_left, List.drop_left]

theorem readUnsigned_intLE (w : Nat) (v : Int) (r : List Nat)
    (h0 : 0 ≤ v) (h1 : v < 2 ^ (8 * w)) :
    readUnsigned w (intLE w v ++ r) = some (v, r) := by
  have hmod : v % ((2 : Int) ^ (8 * w)) = v := Int.emod_eq_of_lt h0 h1
  have hcast : ((2 : Int) ^ (8 * w)) = ((2 ^ (8 * w) : Nat) : Int) := by push_cast; ring
  rw [hcast] at h1
  have hlt : v.toNat < 256 ^ w := by
    rw [pow256_eq]
    omega
  simp [readUnsigned, intLE, hmod, readChunk_append _ _ _ (natLE_length w v.toNat),
    leVal_natLE _ _ hlt, Int.toNat_of_nonneg h0]

theorem readU64_intLE (v : Int) (r : List Nat) (h : u64ok v = true) :
    readUnsigned 8 (intLE 8 v ++ r) = some (v, r) := by
  simp only [u64ok, Bool.and_eq_true, decide_eq_true_eq] at h
  exact readUnsigned_intLE 8 v r h.1 (by omega)

theorem readU128_intLE (v : Int) (r : List Nat) (h : u128ok v = true) :
    readUnsigned 16 (intLE 16 v ++ r) = some (v, r) := by
  simp only [u128ok, Bool.and_eq_true, decide_eq_true_eq] at h
  exact readUnsigned_intLE 16 v r h.1 (by omega)

theorem readU16_intLE (v : Int) (r : List Nat) (h : u16ok v = true) :
    readUnsigned 2 (intLE 2 v ++ r) = some (v, r) := by
  simp only [u16ok, Bool.and_eq_true, decide_eq_true_eq] at h
  exact readUnsigned_intLE 2 v r h.1 (by omega)

theorem readI64_intLE (v : Int) (r : List Nat) (h : i64ok v = true) :
    readI64 (intLE 8 v ++ r) = some (v, r) := by
  simp only [i64ok, Bool.and_eq_true, decide_eq_true_eq] at h
  obtain ⟨hlo, hhi⟩ := h
  have h256 : (256 : Nat) ^ 8 = 2 ^ 64 := by norm_num
  rcases le_or_lt 0 v with hv | hv
  · have hmod : v % ((2 : Int) ^ (8 * 8)) = v := Int.emod_eq_of_lt hv (by norm_num; omega)
    have hlt : v.toNat < 256 ^ 8 := by omega
    have hsm : leVal (natLE 8 v.toNat) = v.toNat := leVal_natLE 8 v.toNat hlt
    have hc := readChunk_append (natLE 8 v.toNat) r 8 (natLE_length 8 v.toNat)
    simp only [readI64, intLE, hmod, hc, Option.map_some', hsm]
    have hsmall : v.toNat < 2 ^ 63 := by omega
    rw [if_pos hsmall, Int.toNat_of_nonneg hv]
  · have hmod : v % ((2 : Int) ^ (8 * 8)) = v + 2 ^ 64 := by
      have hstep : (v + 2 ^ 64) % ((2 : Int) ^ 64) = v % ((2 : Int) ^ 64) := by
        have hself := Int.add_mul_emod_self_left (a := v) (b := (2 : Int) ^ 64) (c := 1)
        rwa [mul_one] at hself
      have heq : (v + 2 ^ 64) % ((2 : Int) ^ 64) = v + 2 ^ 64 :=
        Int.emod_eq_of_lt (by omega) (by omega)
      have hexp : (8 : Nat) * 8 = 64 := by norm_num
      rw [hexp, ← hstep, heq]
    have hlt : (v + 2 ^ 64).toNat < 256 ^ 8 := by omega
    have hsm : leVal (natLE 8 (v + 2 ^ 64).toNat) = (v + 2 ^ 64).toNat :=
      leVal_natLE 8 _ hlt
    have hc := readChunk_append (natLE 8 (v + 2 ^ 64).toNat) r 8 (natLE_length 8 _)
    simp only [readI64, intLE, hmod, hc, Option.map_some', hsm]
    have hbig : ¬ ((v + 2 ^ 64).toNat < 2 ^ 63) := by omega
    rw [if_neg hbig]
    have hcast : (((v + 2 ^ 64).toNat : Int)) = v + 2 ^ 64 := by omega
    rw [hcast]
    ring_nf

theorem readByte_u8Byte (n : Nat) (r : List Nat) (h : n < 256) :
    readByte (u8Byte n ++ r) = some (n, r) := by
  simp [u8Byte, readByte, Nat.mod_eq_of_lt h]

theorem readBool_boolByte (b : Bool) (r : List Nat) :
    readBool (boolByte b ++ r) = some (b, r) := by
  cases b <;> rfl

theorem readPubkey_append (b : List Nat) (r : List Nat) (h : bytes32ok b = true) :
    readPubkey (b ++ r) = some (b, r) := by
  simp only [bytes32ok, Bool.and_eq_true, beq_iff_eq] at h
  exact readChunk_append b r 32 h.1

theorem readKeyType_code (k : KeyType) (r : List Nat) :
    readKeyType (u8Byte k.code ++ r) = some (k, r) := by
  cases k <;> rfl

theorem readCluster_code (c : ClusterType) (r : List Nat) :
    readCluster (u8Byte c.code ++ r) = some (c, r) := by
  cases c <;> rfl

theorem readMetric_code (m : HealthMetric) (r : List Nat) :
    readMetric (u8Byte m.code ++ r) = some (m, r) := by
  cases m <;> rfl

theorem readHealthFloor_encode (h : HealthFloor) (r : List Nat)
    (hv : validHealthFloor h = true) :
    readHealthFloor (encodeHealthFloor h ++ r) = some (h, r) := by
  simp [encodeHealthFloor, readHealthFloor, List.append_assoc, readMetric_code,
    readI64_intLE _ _ hv]

theorem readTif_encode (t : TimeInForceValue) (r : List Nat)
    (hv : validTif t = true) :
    readTif (encodeTif t ++ r) = some (t, r) := by
  cases t with
  | GTT timestamp =>
    simp only [validTif] at hv
    simp [encodeTif, readTif, readByte, readU64_intLE _ _ hv]
  | _ => rfl

theorem readReplayMode_encode (m : ReplayMode) (r : List Nat)
    (hv : validMode m = true) :
    readReplayMode (encodeReplayMode m ++ r) = some (m, r) := by
  cases m with
  | Sequence expected =>
    simp only [validMode] at hv
    simp [encodeReplayMode, readReplayMode, readByte, readU64_intLE _ _ hv]
  | Nonce salt =>
    simp only [validMode, bytes32ok, Bool.and_eq_true, beq_iff_eq] at hv
    simp [encodeReplayMode, readReplayMode, readByte, readChunk_append _ _ _ hv.1]
  | Allowance ident =>
    simp only [validMode, bytes32ok, Bool.and_eq_true, beq_iff_eq] at hv
    simp [encodeReplayMode, readReplayMode, readByte, readChunk_append _ _ _ hv.1]
  | HlWindow k =>
    simp only [validMode, decide_eq_true_eq] at hv
    simp [encodeReplayMode, readReplayMode, readByte, u8Byte, Nat.mod_eq_of_lt hv]

theorem readOptU64_encode (o : Option Int) (r : List Nat)
    (hv : o.all u64ok = true) :
    readOpt (readUnsigned 8) (optBytes (intLE 8) o ++ r) = some (o, r) := by
  cases o with
  | none => rfl
  | some v =>
    simp only [Option.all_some] at hv
    simp [optBytes, readOpt, readU64_intLE _ _ hv]

theorem readOptHealthFloor_encode (o : Option HealthFloor) (r : List Nat)
    (hv : o.all validHealthFloor = true) :
    readOpt readHealthFloor (optBytes encodeHealthFloor o ++ r) = some (o, r) := by
  cases o with
  | none => rfl
  | some h =>
    simp only [Option.all_some] at hv
    simp [optBytes, readOpt, readHealthFloor_encode _ _ hv]

theorem readOptPubkey_encode (o : Option Pubkey) (r : List Nat)
    (hv : o.all bytes32ok = true) :
    readOpt readPubkey (optBytes (fun p => p) o ++ r) = some (o, r) := by
  cases o with
  | none => rfl
  | some b =>
    simp only [Option.all_some] at hv
    simp [optBytes, readOpt, readPubkey_append _ _ hv]

theorem readAction_cons (b : Nat) (l : List Nat) :
    readAction (b :: l) =
      match b with
      | 0 => readPlaceBody l
      | 1 => readCancelByIdBody l
      | 2 => readCancelByClientIdBody l
      | 3 => readCancelAllBody l
      | 4 => readModifyBody l
      | 5 => readWithdrawBody l
      | 6 => readSetLeverageBody l
      | 7 => some (.Noop, l)
      | 8 => readFaucetBody l
      | _ => none := rfl

set_option maxHeartbeats 1000000 in
theorem readAction_encode (a : PermitAction) (r : List Nat)
    (hv : validAction a = true) :
    readAction (encodePermitAction a ++ r) = some (a, r) := by
  cases a with
  | Place marketId clientId side qty price tif reduceOnly triggerPrice triggerType healthFloor =>
    simp only [validAction, Bool.and_eq_true, decide_eq_true_eq] at hv
    obtain ⟨⟨⟨⟨⟨⟨⟨⟨h1, h2⟩, h3⟩, h4⟩, h5⟩, h6⟩, h7⟩, h8⟩, h9⟩ := hv
    simp only [encodePermitAction, List.cons_append, readAction_cons, List.append_assoc]
    simp [readPlaceBody, readU64_intLE _ _ h1, readU128_intLE _ _ h2,
      readByte_u8Byte _ _ h3, readU64_intLE _ _ h4, readOptU64_encode _ _ h5,
      readTif_encode _ _ h6, readBool_boolByte, readOptU64_encode _ _ h7,
      readByte_u8Byte _ _ h8, readOptHealthFloor_encode _ _ h9]
  | CancelById marketId orderId =>
    simp only [validAction, Bool.and_eq_true] at hv
    simp only [encodePermitAction, List.cons_append, readAction_cons, List.append_assoc]
    simp [readCancelByIdBody, readU64_intLE _ _ hv.1, readU64_intLE _ _ hv.2]
  | CancelByClientId marketId clientId =>
    simp only [validAction, Bool.and_eq_true] at hv
    simp only [encodePermitAction, List.cons_append, readAction_cons, List.append_assoc]
    simp [readCancelByClientIdBody, readU64_intLE _ _ hv.1, readU128_intLE _ _ hv.2]
  | CancelAll marketId =>
    simp only [validAction] at hv
    simp only [encodePermitAction, List.cons_append, readAction_cons, List.append_assoc]
    simp [readCancelAllBody, readOptU64_encode _ _ hv]
  | Modify marketId cancelOrderId newClientId side qty price tif reduceOnly triggerPrice triggerType healthFloor =>
    simp only [validAction, Bool.and_eq_true, decide_eq_true_eq] at hv
    obtain ⟨⟨⟨⟨⟨⟨⟨⟨⟨h1, h2⟩, h3⟩, h4⟩, h5⟩, h6⟩, h7⟩, h8⟩, h9⟩, h10⟩ := hv
    simp only [encodePermitAction, List.cons_append, readAction_cons, List.append_assoc]
    simp [readModifyBody, readU64_intLE _ _ h1, readU64_intLE _ _ h2,
      readU128_intLE _ _ h3, readByte_u8Byte _ _ h4, readU64_intLE _ _ h5,
      readOptU64_encode _ _ h6, readTif_encode _ _ h7, readBool_boolByte,
      readOptU64_encode _ _ h8, readByte_u8Byte _ _ h9,
      readOptHealthFloor_encode _ _ h10]
  | Withdraw amount toOwner healthFloor =>
    simp only [validAction, Bool.and_eq_true] at hv
    obtain ⟨⟨h1, h2⟩, h3⟩ := hv
    simp only [encodePermitAction, List.cons_append, readAction_cons, List.append_assoc]
    simp [readWithdrawBody, readU64_intLE _ _ h1, readPubkey_append _ _ h2,
      readOptHealthFloor_encode _ _ h3]
  | SetLeverage marketId targetLeverageBps healthFloor =>
    simp only [validAction, Bool.and_eq_true] at hv
    obtain ⟨⟨h1, h2⟩, h3⟩ := hv
    simp only [encodePermitAction, List.cons_append, readAction_cons, List.append_assoc]
    simp [readSetLeverageBody, readU64_intLE _ _ h1, readU16_intLE _ _ h2,
      readOptHealthFloor_encode _ _ h3]
  | Noop => rfl
  | Faucet marketId amount recipient =>
    simp only [validAction, Bool.and_eq_true] at hv
    obtain ⟨⟨h1, h2⟩, h3⟩ := hv
    simp only [encodePermitAction, List.cons_append, readAction_cons, List.append_assoc]
    simp [readFaucetBody, readU64_intLE _ _ h1, readU64_intLE _ _ h2,
      readPubkey_append _ _ h3]

set_option maxHeartbeats 2000000 in
theorem readEnvelope_encode (e : PermitEnvelopeV1) (r : List Nat)
    (hv : validEnvelope e = true) :
    readEnvelope (encodePermitEnvelope e ++ r) = some (e, r) := by
  obtain ⟨⟨programId, version, cluster⟩, authorizer, keyType, action, mode,
    expiresUnix, maxFeeQuote, relayer, nonce⟩ := e
  simp only [validEnvelope, Bool.and_eq_true, decide_eq_true_eq] at hv
  obtain ⟨⟨⟨⟨⟨⟨⟨⟨h1, h2⟩, h3⟩, h4⟩, h5⟩, h6⟩, h7⟩, h8⟩, h9⟩ := hv
  simp [encodePermitEnvelope, encodePermitDomain, readEnvelope, List.append_assoc,
    readPubkey_append _ _ h1, readCluster_code, readByte_u8Byte _ _ h2,
    readPubkey_append _ _ h3, readKeyType_code, readAction_encode _ _ h4,
    readReplayMode_encode _ _ h5, readI64_intLE _ _ h6, readU64_intLE _ _ h7,
    readOptPubkey_encode _ _ h8, readU64_intLE _ _ h9]

/-! ## Concrete sample envelopes -/

/-- A sample valid envelope exercising negative `i64`, options, GTT and a
health floor. -/
def envSample : PermitEnvelopeV1 :=
  { domain := { programId := List.replicate 32 1, version := 1, cluster := .Testnet },
    authorizer := List.replicate 32 2,
    keyType := .Ed25519,
    action := .Place 7 300 0 21000 (some 131425000000) (.GTT 99) true (some 5) 1
      (some ⟨.RatioBps, -3⟩),
    mode := .HlWindow 128,
    expiresUnix := -10,
    maxFeeQuote := 1000000,
    relayer := some (List.replicate 32 3),
    nonce := 42 }

/-- A sample valid envelope on the Devnet cluster (cluster code 2, version 1),
separating the two domain bytes. -/
def envDevnet : PermitEnvelopeV1 :=
  { domain := { programId := List.replicate 32 0, version := 1, cluster := .Devnet },
    authorizer := List.replicate 32 0,
    keyType := .Ed25519,
    action := .Noop,
    mode := .HlWindow 128,
    expiresUnix := 0,
    maxFeeQuote := 0,
    relayer := none,
    nonce := 0 }

/-- C1: for every valid `PermitEnvelopeV1` value `e`, the codec's decode is the
exact inverse of encode: `decode (encodePermitEnvelope e) = e` (decode returns
an envelope or a decode error, modelled by `Option`). -/
theorem permit_codec_roundtrip (e : PermitEnvelopeV1) (hv : validEnvelope e = true) :
    decodePermitEnvelope (encodePermitEnvelope e) = some e := by
  have h := readEnvelope_encode e [] hv
  rw [List.append_nil] at h
  simp [decodePermitEnvelope, h]

/-- Witness for C1: the round trip evaluated at the concrete valid envelope
`envSample`. -/
theorem permit_codec_roundtrip_witness :
    validEnvelope envSample = true
      ∧ decodePermitEnvelope (encodePermitEnvelope envSample) = some envSample :=
  ⟨by decide, permit_codec_roundtrip envSample (by decide)⟩

/-- Counterexample for C2: the claim says the `PermitDomain` is encoded as the
32-byte programId followed by the version byte followed by the cluster byte;
but `permitDomainSchema` writes the cluster byte first.  On `envDevnet`
(version 1, cluster Devnet = 2) byte 32 of the encoding is 2 (the cluster
code), not the version byte 1 — the version byte is at position 33. -/
theorem encode_domain_order_cex :
    ((encodePermitEnvelope envDevnet).drop 32).head? = some 2
      ∧ ((encodePermitEnvelope envDevnet).drop 33).head? = some 1
      ∧ envDevnet.domain.version = 1
      ∧ envDevnet.domain.cluster.code = 2 := by decide

/-- C2 (amended): the envelope is serialized in the schema's field order: the
32-byte programId, then the CLUSTER byte, then the VERSION byte, and then the
remaining fields in the order authorizer, keyType, action, mode, expiresUnix,
maxFeeQuote, optional relayer, nonce. -/
theorem encode_envelope_layout (e : PermitEnvelopeV1)
    (hp : e.domain.programId.length = 32) :
    (encodePermitEnvelope e).take 32 = e.domain.programId
      ∧ ((encodePermitEnvelope e).drop 32).head? = some e.domain.cluster.code
      ∧ ((encodePermitEnvelope e).drop 33).head? = some (e.domain.version % 256)
      ∧ (encodePermitEnvelope e).drop 34 =
          e.authorizer ++ u8Byte e.keyType.code ++ encodePermitAction e.action
            ++ encodeReplayMode e.mode ++ intLE 8 e.expiresUnix
            ++ intLE 8 e.maxFeeQuote ++ optBytes (fun p => p) e.relayer
            ++ intLE 8 e.nonce := by
  have hcl : e.domain.cluster.code % 256 = e.domain.cluster.code :=
    Nat.mod_eq_of_lt (by cases e.domain.cluster <;> norm_num [ClusterType.code])
  have henc : encodePermitEnvelope e =
      e.domain.programId ++ (e.domain.cluster.code :: e.domain.version % 256 ::
        (e.authorizer ++ (u8Byte e.keyType.code ++ (encodePermitAction e.action
          ++ (encodeReplayMode e.mode ++ (intLE 8 e.expiresUnix
          ++ (intLE 8 e.maxFeeQuote ++ (optBytes (fun p => p) e.relayer
          ++ intLE 8 e.nonce)))))))) := by
    simp [encodePermitEnvelope, encodePermitDomain, u8Byte, hcl, List.append_assoc]
  refine ⟨?_, ?_, ?_, ?_⟩
  · rw [henc]
    exact List.take_left' hp
  · rw [henc, List.drop_left' hp]
    rfl
  · have h33 : (encodePermitEnvelope e).drop 33 = ((encodePermitEnvelope e).drop 32).drop 1 := by
      rw [List.drop_drop]
    rw [h33, henc, List.drop_left' hp]
    rfl
  · have h34 : (encodePermitEnvelope e).drop 34 = ((encodePermitEnvelope e).drop 32).drop 2 := by
      rw [List.drop_drop]
    rw [h34, henc, List.drop_left' hp]
    simp [List.append_assoc]

/-- Witness for C2 (amended): the layout evaluated on `envDevnet` — byte 32 is
the cluster code. -/
theorem encode_envelope_layout_witness :
    ((encodePermitEnvelope envDevnet).drop 32).head? = some envDevnet.domain.cluster.code :=
  (encode_envelope_layout envDevnet (by decide)).2.1

/-! ## Signer (src/app/ambient/permit/signer.ts)

Ed25519 itself (`nacl.sign.detached`) is an external library; it is abstracted
as an explicit signing-function parameter `edSign : message → secretKey →
signature`, so every theorem below holds for the actual primitive. -/

/-- A Solana `Keypair`: 32-byte public key and secret key bytes. -/
structure Keypair where
  publicKey : Pubkey
  secretKey : List Nat
deriving DecidableEq, Repr

/-- `interface PermitSignature { message; signature; publicKey }`. -/
structure PermitSignature where
  message : List Nat
  signature : List Nat
  publicKey : Pubkey
deriving DecidableEq, Repr

/-- `interface SignedPermit { envelope; signature; publicKey;
verifyInstruction }` — only the instruction's `data` bytes are modelled (its
`keys` are empty and its program id is the Ed25519 program constant). -/
structure SignedPermit where
  envelope : PermitEnvelopeV1
  signature : List Nat
  publicKey : Pubkey
  verifyInstructionData : List Nat
deriving DecidableEq, Repr

/-- `generatePermitSignature` (signer.ts): `message = encodePermitEnvelope
(envelope)`, `signature = nacl.sign.detached(message, keypair.secretKey)`. -/
def generatePermitSignature (edSign : List Nat → List Nat → List Nat)
    (envelope : PermitEnvelopeV1) (keypair : Keypair) : PermitSignature :=
  let message := encodePermitEnvelope envelope
  { message := message
    signature := edSign message keypair.secretKey
    publicKey := keypair.publicKey }

/-- `PermitSigner.createEd25519Instruction` (signer.ts): the instruction data
is a zero-initialized buffer of `16 + 64 + 32 + message.length` bytes; the
header writes tile bytes 0–14 (`numSignatures = 1`, then seven little-endian
`u16` fields), byte 15 stays zero (padding), and `set` places the signature at
offset 16, the public key at offset 80 and the message at offset 112 — exactly
filling the buffer when the signature is 64 bytes and the key 32 bytes (the
only shapes `nacl` and `PublicKey.toBytes` produce).  `writeUInt16LE` throws
for values ≥ 2^16; the embedding reduces modulo 2^16 instead and the layout
theorem is stated for messages below that bound. -/
def createEd25519InstructionData (signature : List Nat) (publicKey : Pubkey)
    (message : List Nat) : List Nat :=
  [1] ++ natLE 2 16 ++ natLE 2 0 ++ natLE 2 80 ++ natLE 2 0 ++ natLE 2 112
    ++ natLE 2 (message.length % 65536) ++ natLE 2 0 ++ [0]
    ++ signature ++ publicKey ++ message

/-- `PermitSigner.sign` (signer.ts): sign the canonical bytes and build the
verification instruction. -/
def PermitSigner.sign (edSign : List Nat → List Nat → List Nat)
    (envelope : PermitEnvelopeV1) (keypair : Keypair) : SignedPermit :=
  let ps := generatePermitSignature edSign envelope keypair
  { envelope := envelope
    signature := ps.signature
    publicKey := keypair.publicKey
    verifyInstructionData :=
      createEd25519InstructionData ps.signature keypair.publicKey ps.message }

/-- `PermitSigner.signWithSession` (signer.ts): override `envelope.authorizer`
with the session key's public key, then delegate to `sign` with the session
keypair. -/
def PermitSigner.signWithSession (edSign : List Nat → List Nat → List Nat)
    (envelope : PermitEnvelopeV1) (sessionKeypair : Keypair) : SignedPermit :=
  PermitSigner.sign edSign { envelope with authorizer := sessionKeypair.publicKey }
    sessionKeypair

/-- C3: for every 64-byte signature `S`, 32-byte pubkey `P` and `n`-byte
message `M` (with `n` in `u16` range, as required by `writeUInt16LE`), the
verification instruction's data has length `112 + n`, byte 0 equals 1, bytes
16/80/112 onward equal `S`/`P`/`M`, and the little-endian `u16` header fields
are `signatureOffset = 16`, `pubkeyOffset = 80`, `messageOffset = 112`,
`messageLength = n`, with all three instruction-index fields 0. -/
theorem ed25519_instruction_layout (S P M : List Nat)
    (hS : S.length = 64) (hP : P.length = 32) (hM : M.length < 65536) :
    (createEd25519InstructionData S P M).length = 112 + M.length
      ∧ (createEd25519InstructionData S P M).head? = some 1
      ∧ ((createEd25519InstructionData S P M).drop 16).take 64 = S
      ∧ ((createEd25519InstructionData S P M).drop 80).take 32 = P
      ∧ (createEd25519InstructionData S P M).drop 112 = M
      ∧ leVal (((createEd25519InstructionData S P M).drop 1).take 2) = 16
      ∧ leVal (((createEd25519InstructionData S P M).drop 3).take 2) = 0
      ∧ leVal (((createEd25519InstructionData S P M).drop 5).take 2) = 80
      ∧ leVal (((createEd25519InstructionData S P M).drop 7).take 2) = 0
      ∧ leVal (((createEd25519InstructionData S P M).drop 9).take 2) = 112
      ∧ leVal (((createEd25519InstructionData S P M).drop 11).take 2) = M.length
      ∧ leVal (((createEd25519InstructionData S P M).drop 13).take 2) = 0 := by
  have henc : createEd25519InstructionData S P M =
      1 :: 16 :: 0 :: 0 :: 0 :: 80 :: 0 :: 0 :: 0 :: 112 :: 0 ::
        (M.length % 65536 % 256) :: (M.length % 65536 / 256 % 256) :: 0 :: 0 :: 0 ::
        (S ++ (P ++ M)) := by
    simp [createEd25519InstructionData, natLE]
  refine ⟨?_, ?_, ?_, ?_, ?_, ?_, ?_, ?_, ?_, ?_, ?_, ?_⟩
  · simp [henc, hS, hP]
    omega
  · simp [henc]
  · rw [henc]
    simp only [List.drop_succ_cons, List.drop_zero]
    exact List.take_left' hS
  · rw [henc]
    simp only [List.drop_succ_cons, List.drop_zero]
    rw [List.drop_left' hS]
    exact List.take_left' hP
  · rw [henc]
    simp only [List.drop_succ_cons, List.drop_zero]
    rw [show (96 : Nat) = 64 + 32 from rfl, ← List.drop_drop,
      List.drop_left' hS, List.drop_left' hP]
  · simp [henc, leVal]
  · simp [henc, leVal]
  · simp [henc, leVal]
  · simp [henc, leVal]
  · simp [henc, leVal]
  · simp only [henc, List.drop_succ_cons, List.drop_zero, List.take_succ_cons,
      List.take_zero, leVal]
    omega
  · simp [henc, leVal]

/-- Witness for C3: the layout evaluated on a concrete 64-byte signature,
32-byte key and 3-byte message. -/
theorem ed25519_instruction_layout_witness :
    (createEd25519InstructionData (List.replicate 64 7) (List.replicate 32 9)
      [4, 5, 6]).length = 112 + 3 :=
  (ed25519_instruction_layout (List.replicate 64 7) (List.replicate 32 9) [4, 5, 6]
    (by simp) (by simp) (by simp)).1

/-- C9: `signWithSession e k` returns a `SignedPermit` whose envelope equals
`e` with only the authorizer replaced by `k`'s public key (all other fields
unchanged), and whose signature is the Ed25519 detached signature — for the
abstract signing primitive `edSign` — of the canonical encoding of that
modified envelope under `k`'s secret key. -/
theorem signWithSession_spec (edSign : List Nat → List Nat → List Nat)
    (e : PermitEnvelopeV1) (k : Keypair) :
    (PermitSigner.signWithSession edSign e k).envelope
        = { e with authorizer := k.publicKey }
      ∧ (PermitSigner.signWithSession edSign e k).envelope.authorizer = k.publicKey
      ∧ (PermitSigner.signWithSession edSign e k).envelope.domain = e.domain
      ∧ (PermitSigner.signWithSession edSign e k).envelope.keyType = e.keyType
      ∧ (PermitSigner.signWithSession edSign e k).envelope.action = e.action
      ∧ (PermitSigner.signWithSession edSign e k).envelope.mode = e.mode
      ∧ (PermitSigner.signWithSession edSign e k).envelope.expiresUnix = e.expiresUnix
      ∧ (PermitSigner.signWithSession edSign e k).envelope.maxFeeQuote = e.maxFeeQuote
      ∧ (PermitSigner.signWithSession edSign e k).envelope.relayer = e.relayer
      ∧ (PermitSigner.signWithSession edSign e k).envelope.nonce = e.nonce
      ∧ (PermitSigner.signWithSession edSign e k).signature
          = edSign (encodePermitEnvelope { e with authorizer := k.publicKey })
              k.secretKey
      ∧ (PermitSigner.signWithSession edSign e k).publicKey = k.publicKey :=
  ⟨rfl, rfl, rfl, rfl, rfl, rfl, rfl, rfl, rfl, rfl, rfl, rfl⟩

/-! ## Exchange adapter (src/app/ambient/permit/hyperliquid.ts)

String-level helpers.  JavaScript `BigInt(string)` is modelled by `jsBigInt?`:
the empty string is 0; an optional sign followed by decimal digits; or an
unsigned `0x`/`0o`/`0b` radix literal; anything else throws (`none`).
Whitespace trimming of the JS builtin is not modelled — no caller in this
repository passes padded strings. -/

/-- Decimal digit characters `'0'`–`'9'` (codes 48–57). -/
def isDigitChar (c : Char) : Bool := decide (48 ≤ c.toNat) && decide (c.toNat ≤ 57)

/-- Value of a decimal digit character. -/
def digitVal (c : Char) : Nat := c.toNat - 48

/-- Value of a digit string, most significant first. -/
def natOfDigits (l : List Char) : Nat :=
  l.foldl (fun acc c => acc * 10 + digitVal c) 0

/-- Hexadecimal digit characters. -/
def isHexDigitChar (c : Char) : Bool :=
  (decide (48 ≤ c.toNat) && decide (c.toNat ≤ 57))
    || (decide (65 ≤ c.toNat) && decide (c.toNat ≤ 70))
    || (decide (97 ≤ c.toNat) && decide (c.toNat ≤ 102))

/-- Value of a hexadecimal digit character. -/
def hexVal (c : Char) : Nat :=
  if c.toNat ≤ 57 then c.toNat - 48
  else if c.toNat ≤ 70 then c.toNat - 55
  else c.toNat - 87

/-- Parse a nonempty digit string in the given base. -/
def parseRadix? (base : Nat) (valid : Char → Bool) (val : Char → Nat)
    (l : List Char) : Option Nat :=
  if l ≠ [] ∧ l.all valid then some (l.foldl (fun acc c => acc * base + val c) 0)
  else none

/-- Parse a nonempty decimal digit string. -/
def parseDecDigits? (l : List Char) : Option Nat :=
  parseRadix? 10 isDigitChar digitVal l

/-- Radix literal bodies after a leading `0`: `x`/`X` hex, `o`/`O` octal,
`b`/`B` binary; any other continuation is read as a decimal literal (leading
zeros are legal decimal). -/
def jsBigIntRadix? (whole rest : List Char) : Option Int :=
  match rest with
  | [] => (parseDecDigits? whole).map fun n => (n : Int)
  | x :: rest2 =>
    if x = 'x' ∨ x = 'X' then
      (parseRadix? 16 isHexDigitChar hexVal rest2).map fun n => (n : Int)
    else if x = 'o' ∨ x = 'O' then
      (parseRadix? 8 (fun c => decide (48 ≤ c.toNat) && decide (c.toNat ≤ 55))
        digitVal rest2).map fun n => (n : Int)
    else if x = 'b' ∨ x = 'B' then
      (parseRadix? 2 (fun c => decide (48 ≤ c.toNat) && decide (c.toNat ≤ 49))
        digitVal rest2).map fun n => (n : Int)
    else (parseDecDigits? whole).map fun n => (n : Int)

/-- JavaScript `BigInt(string)` on the character list (see the section
comment): empty → 0; one optional sign then decimal digits; or an unsigned
`0x`/`0o`/`0b` radix literal. -/
def jsBigIntList? (l : List Char) : Option Int :=
  match l with
  | [] => some 0
  | c :: rest =>
    if c = '-' then (parseDecDigits? rest).map fun n => -(n : Int)
    else if c = '+' then (parseDecDigits? rest).map fun n => (n : Int)
    else if c = '0' then jsBigIntRadix? l rest
    else (parseDecDigits? l).map fun n => (n : Int)

/-- JavaScript `BigInt(string)` (see the section comment). -/
def jsBigInt? (s : String) : Option Int := jsBigIntList? s.data

/-- First segment of `split(".")`: everything before the first dot. -/
def part0 (l : List Char) : List Char := l.takeWhile (· ≠ '.')

/-- Second segment of `split(".")` (the destructuring default makes it empty
when there is no dot; segments after a second dot are dropped). -/
def part1 (l : List Char) : List Char :=
  ((l.dropWhile (· ≠ '.')).drop 1).takeWhile (· ≠ '.')

/-- `decimalToFixed` (hyperliquid.ts): strip one leading sign, split on the
first dot, right-pad/truncate the fraction to `decimals` digits, strip leading
zeros, and convert with `BigInt` (empty digits become `"0"`); the sign is
re-applied at the end.  `none` models the `BigInt` throw on a malformed
string. -/
def decimalToFixed (value : String) (decimals : Nat) : Option Int :=
  let sv := value.data
  let isNegative := sv.head? = some '-'
  let unsigned := if isNegative ∨ sv.head? = some '+' then sv.drop 1 else sv
  let whole := part0 unsigned
  let fraction := part1 unsigned
  let normalizedFraction := (fraction ++ List.replicate decimals '0').take decimals
  let digits := (whole ++ normalizedFraction).dropWhile (· = '0')
  (jsBigInt? (if digits.isEmpty then "0" else ⟨digits⟩)).map fun magnitude =>
    if isNegative then -magnitude else magnitude

/-- The adapter's input-validation errors (`throw new Error(...)` sites in
hyperliquid.ts, plus `bigIntConversion` for a raw `BigInt`/`Number` throw). -/
inductive AdapterError where
  | unknownMarket
  | unsupportedTimeInForce (tif : String)
  | cancelByCloidFields
  | invalidFaucet
  | bigIntConversion
deriving DecidableEq, Repr

/-- `toTimeInForceValue` (hyperliquid.ts): the switch accepts exactly the
strings `Gtc`, `GTC`, `Ioc`, `IOC`, `Alo`, `ALO` and throws
`Unsupported time-in-force` otherwise. -/
def toTimeInForceValue (tif : String) : Except AdapterError TimeInForceValue :=
  if tif = "Gtc" ∨ tif = "GTC" then .ok .GTC
  else if tif = "Ioc" ∨ tif = "IOC" then .ok .IOC
  else if tif = "Alo" ∨ tif = "ALO" then .ok .ALO
  else .error (.unsupportedTimeInForce tif)

/-! ## Digit-string arithmetic (for the fixed-point conversion claims) -/

theorem natOfDigits_from (l : List Char) (acc : Nat) :
    l.foldl (fun a c => a * 10 + digitVal c) acc
      = acc * 10 ^ l.length + natOfDigits l := by
  induction l generalizing acc with
  | nil => simp [natOfDigits]
  | cons c cs ih =>
    have h0 : natOfDigits (c :: cs) = digitVal c * 10 ^ cs.length + natOfDigits cs := by
      show List.foldl (fun a c => a * 10 + digitVal c) (0 * 10 + digitVal c) cs = _
      rw [ih]
      norm_num
    rw [show List.foldl (fun a c => a * 10 + digitVal c) acc (c :: cs)
        = List.foldl (fun a c => a * 10 + digitVal c) (acc * 10 + digitVal c) cs from rfl,
      ih, h0, List.length_cons]
    ring

theorem natOfDigits_cons (c : Char) (cs : List Char) :
    natOfDigits (c :: cs) = digitVal c * 10 ^ cs.length + natOfDigits cs := by
  show List.foldl (fun a c => a * 10 + digitVal c) (0 * 10 + digitVal c) cs = _
  rw [natOfDigits_from]
  norm_num

theorem natOfDigits_append (a b : List Char) :
    natOfDigits (a ++ b) = natOfDigits a * 10 ^ b.length + natOfDigits b := by
  show List.foldl (fun a c => a * 10 + digitVal c) 0 (a ++ b) = _
  rw [List.foldl_append, natOfDigits_from]
  rfl

theorem natOfDigits_replicate_zero (k : Nat) :
    natOfDigits (List.replicate k '0') = 0 := by
  induction k with
  | zero => rfl
  | succ k ih =>
    rw [List.replicate_succ, natOfDigits_cons, ih]
    simp [digitVal]

theorem natOfDigits_dropWhile_zero (l : List Char) :
    natOfDigits (l.dropWhile (· = '0')) = natOfDigits l := by
  induction l with
  | nil => rfl
  | cons c cs ih =>
    by_cases h : c = '0'
    · subst h
      rw [List.dropWhile_cons_of_pos (by simp), ih, natOfDigits_cons]
      simp [digitVal]
    · rw [List.dropWhile_cons_of_neg (by simp [h])]

theorem digitVal_lt (c : Char) (h : isDigitChar c = true) : digitVal c < 10 := by
  simp only [isDigitChar, Bool.and_eq_true, decide_eq_true_eq] at h
  unfold digitVal
  omega

theorem natOfDigits_lt (l : List Char) (h : l.all isDigitChar = true) :
    natOfDigits l < 10 ^ l.length := by
  induction l with
  | nil => simp [natOfDigits]
  | cons c cs ih =>
    simp only [List.all_cons, Bool.and_eq_true] at h
    have hv := digitVal_lt c h.1
    have hrec := ih h.2
    rw [natOfDigits_cons, List.length_cons]
    calc digitVal c * 10 ^ cs.length + natOfDigits cs
        < digitVal c * 10 ^ cs.length + 10 ^ cs.length := by omega
      _ = (digitVal c + 1) * 10 ^ cs.length := by ring
      _ ≤ 10 * 10 ^ cs.length := Nat.mul_le_mul_right _ (by omega)
      _ = 10 ^ (cs.length + 1) := by rw [pow_succ]; ring

theorem natOfDigits_take (l : List Char) (k : Nat)
    (h : l.all isDigitChar = true) :
    natOfDigits (l.take k) = natOfDigits l / 10 ^ (l.length - k) := by
  have hsplit : l.take k ++ l.drop k = l := List.take_append_drop k l
  have hlen : (l.drop k).length = l.length - k := by simp
  have hdr : (l.drop k).all isDigitChar = true := by
    rw [← hsplit, List.all_append, Bool.and_eq_true] at h
    exact h.2
  have hlt : natOfDigits (l.drop k) < 10 ^ (l.length - k) :=
    hlen ▸ natOfDigits_lt _ hdr
  have hval : natOfDigits l
      = natOfDigits (l.take k) * 10 ^ (l.length - k) + natOfDigits (l.drop k) := by
    conv_lhs => rw [← hsplit]
    rw [natOfDigits_append, hlen]
  rw [hval, mul_comm (natOfDigits (l.take k)) (10 ^ (l.length - k)),
    Nat.mul_add_div (by positivity), Nat.div_eq_of_lt hlt]
  omega

/-! ## Splitting and parsing lemmas for decimal strings -/

theorem takeWhile_append_all (p : Char → Bool) (a b : List Char)
    (h : ∀ x ∈ a, p x = true) :
    (a ++ b).takeWhile p = a ++ b.takeWhile p := by
  induction a with
  | nil => simp
  | cons c cs ih =>
    have hc : p c = true := h c (by simp)
    simp only [List.cons_append, List.takeWhile_cons, hc, if_true]
    rw [ih fun x hx => h x (by simp [hx])]

theorem dropWhile_append_all (p : Char → Bool) (a b : List Char)
    (h : ∀ x ∈ a, p x = true) :
    (a ++ b).dropWhile p = b.dropWhile p := by
  induction a with
  | nil => simp
  | cons c cs ih =>
    have hc : p c = true := h c (by simp)
    simp only [List.cons_append, List.dropWhile_cons, hc, if_true]
    exact ih fun x hx => h x (by simp [hx])

theorem takeWhile_all_eq (p : Char → Bool) (l : List Char)
    (h : ∀ x ∈ l, p x = true) : l.takeWhile p = l := by
  have := takeWhile_append_all p l [] h
  simpa using this

theorem dropWhile_all_eq (p : Char → Bool) (l : List Char)
    (h : ∀ x ∈ l, p x = true) : l.dropWhile p = [] := by
  have := dropWhile_append_all p l [] h
  simpa using this

theorem digit_ne_dot {c : Char} (h : isDigitChar c = true) :
    (decide (c ≠ '.')) = true := by
  simp only [isDigitChar, Bool.and_eq_true, decide_eq_true_eq] at h
  simp only [decide_eq_true_eq]
  intro he
  subst he
  have hdot : '.'.toNat = 46 := rfl
  omega

theorem part0_decimal (whole frac : List Char)
    (hw : whole.all isDigitChar = true) :
    part0 (whole ++ '.' :: frac) = whole := by
  unfold part0
  rw [takeWhile_append_all _ _ _ fun x hx => digit_ne_dot (by
    rw [List.all_eq_true] at hw; exact hw x hx)]
  simp [List.takeWhile_cons]

theorem part1_decimal (whole frac : List Char)
    (hw : whole.all isDigitChar = true) (hf : frac.all isDigitChar = true) :
    part1 (whole ++ '.' :: frac) = frac := by
  unfold part1
  rw [dropWhile_append_all _ _ _ fun x hx => digit_ne_dot (by
    rw [List.all_eq_true] at hw; exact hw x hx)]
  rw [List.dropWhile_cons_of_neg (by simp)]
  simp only [List.drop_succ_cons, List.drop_zero]
  exact takeWhile_all_eq _ _ fun x hx => digit_ne_dot (by
    rw [List.all_eq_true] at hf; exact hf x hx)

theorem part0_plain (whole : List Char) (hw : whole.all isDigitChar = true) :
    part0 whole = whole :=
  takeWhile_all_eq _ _ fun x hx => digit_ne_dot (by
    rw [List.all_eq_true] at hw; exact hw x hx)

theorem part1_plain (whole : List Char) (hw : whole.all isDigitChar = true) :
    part1 whole = [] := by
  unfold part1
  rw [dropWhile_all_eq _ _ fun x hx => digit_ne_dot (by
    rw [List.all_eq_true] at hw; exact hw x hx)]
  rfl

theorem all_dropWhile (p q : Char → Bool) (l : List Char)
    (h : l.all q = true) : (l.dropWhile p).all q = true := by
  induction l with
  | nil => rfl
  | cons c cs ih =>
    simp only [List.all_cons, Bool.and_eq_true] at h
    by_cases hp : p c = true
    · rw [List.dropWhile_cons_of_pos hp]
      exact ih h.2
    · rw [List.dropWhile_cons_of_neg hp]
      simp [List.all_cons, h.1, h.2]

theorem all_take (q : Char → Bool) (l : List Char) (k : Nat)
    (h : l.all q = true) : (l.take k).all q = true := by
  rw [← List.take_append_drop k l, List.all_append, Bool.and_eq_true] at h
  exact h.1

theorem head_dropWhile_false (p : Char → Bool) (l : List Char) (c : Char)
    (h : (l.dropWhile p).head? = some c) : p c = false := by
  induction l with
  | nil => simp [List.dropWhile] at h
  | cons x xs ih =>
    by_cases hp : p x = true
    · rw [List.dropWhile_cons_of_pos hp] at h
      exact ih h
    · rw [List.dropWhile_cons_of_neg hp] at h
      simp only [List.head?_cons, Option.some.injEq] at h
      subst h
      simpa using hp

theorem jsBigInt_digits (l : List Char) (h : l.all isDigitChar = true)
    (hne : l ≠ []) (hh : l.head? ≠ some '0') :
    jsBigInt? ⟨l⟩ = some ((natOfDigits l : Nat) : Int) := by
  match l, hne with
  | c :: cs, _ =>
    have hc : isDigitChar c = true := by
      simp only [List.all_cons, Bool.and_eq_true] at h
      exact h.1
    have hc48 : 48 ≤ c.toNat ∧ c.toNat ≤ 57 := by
      simpa [isDigitChar] using hc
    have hc0 : c ≠ '0' := by
      intro he
      subst he
      simp at hh
    have hcm : c ≠ '-' := by
      intro he
      subst he
      have hd : '-'.toNat = 45 := rfl
      omega
    have hcp : c ≠ '+' := by
      intro he
      subst he
      have hd : '+'.toNat = 43 := rfl
      omega
    show jsBigInt? ⟨c :: cs⟩ = _
    unfold jsBigInt? jsBigIntList?
    simp only [String.data]
    rw [if_neg hcm, if_neg hcp, if_neg hc0]
    simp [parseDecDigits?, parseRadix?, h, natOfDigits]

/-! ## The value computed by `decimalToFixed` -/

theorem natOfDigits_normalized (frac : List Char) (d : Nat)
    (hf : frac.all isDigitChar = true) :
    natOfDigits ((frac ++ List.replicate d '0').take d)
      = natOfDigits frac * 10 ^ d / 10 ^ frac.length := by
  rcases le_or_lt frac.length d with hmd | hmd
  · rw [List.take_append_eq_append_take, List.take_of_length_le hmd,
      List.take_replicate, natOfDigits_append, natOfDigits_replicate_zero,
      List.length_replicate]
    have hmin : min (d - frac.length) d = d - frac.length := by omega
    rw [hmin]
    have hpow : (10 : Nat) ^ d = 10 ^ frac.length * 10 ^ (d - frac.length) := by
      rw [← pow_add]
      congr 1
      omega
    rw [hpow, show natOfDigits frac * (10 ^ frac.length * 10 ^ (d - frac.length))
        = natOfDigits frac * 10 ^ (d - frac.length) * 10 ^ frac.length by ring,
      Nat.mul_div_cancel _ (by positivity)]
    omega
  · rw [List.take_append_eq_append_take, show d - frac.length = 0 by omega,
      List.take_zero, List.append_nil, natOfDigits_take frac d hf]
    have hpow : (10 : Nat) ^ frac.length = 10 ^ (frac.length - d) * 10 ^ d := by
      rw [← pow_add]
      congr 1
      omega
    rw [hpow, Nat.mul_div_mul_right _ _ (by positivity)]

theorem normalized_length (frac : List Char) (d : Nat) :
    ((frac ++ List.replicate d '0').take d).length = d := by
  simp

theorem jsBigInt_scaled (whole frac : List Char) (d : Nat)
    (hw : whole.all isDigitChar = true) (hf : frac.all isDigitChar = true) :
    jsBigInt? (if ((whole ++ (frac ++ List.replicate d '0').take d).dropWhile
          (· = '0')).isEmpty
        then "0"
        else ⟨(whole ++ (frac ++ List.replicate d '0').take d).dropWhile (· = '0')⟩)
      = some ((natOfDigits whole * 10 ^ d
          + natOfDigits frac * 10 ^ d / 10 ^ frac.length : Nat) : Int) := by
  have hnormall : ((frac ++ List.replicate d '0').take d).all isDigitChar = true := by
    apply all_take
    rw [List.all_append, Bool.and_eq_true]
    refine ⟨hf, ?_⟩
    rw [List.all_eq_true]
    intro x hx
    rw [List.eq_of_mem_replicate hx]
    rfl
  have hall : (whole ++ (frac ++ List.replicate d '0').take d).all isDigitChar = true := by
    rw [List.all_append, Bool.and_eq_true]
    exact ⟨hw, hnormall⟩
  have hvd : natOfDigits ((whole ++ (frac ++ List.replicate d '0').take d).dropWhile (· = '0'))
      = natOfDigits (whole ++ (frac ++ List.replicate d '0').take d) :=
    natOfDigits_dropWhile_zero _
  have hval : natOfDigits (whole ++ (frac ++ List.replicate d '0').take d)
      = natOfDigits whole * 10 ^ d
          + natOfDigits frac * 10 ^ d / 10 ^ frac.length := by
    rw [natOfDigits_append, normalized_length, natOfDigits_normalized frac d hf]
  by_cases hE : ((whole ++ (frac ++ List.replicate d '0').take d).dropWhile (· = '0')).isEmpty
  · rw [if_pos hE]
    have hdigs : (whole ++ (frac ++ List.replicate d '0').take d).dropWhile (· = '0') = [] := by
      simpa [List.isEmpty_iff] using hE
    have hzero : natOfDigits (whole ++ (frac ++ List.replicate d '0').take d) = 0 := by
      rw [← hvd, hdigs]
      rfl
    rw [hzero] at hval
    rw [show jsBigInt? "0" = some 0 by decide, ← hval]
    simp
  · rw [if_neg hE]
    have hne : (whole ++ (frac ++ List.replicate d '0').take d).dropWhile (· = '0') ≠ [] := by
      simpa [List.isEmpty_iff] using hE
    have hda := all_dropWhile (· = '0') isDigitChar _ hall
    have hh : ((whole ++ (frac ++ List.replicate d '0').take d).dropWhile (· = '0')).head?
        ≠ some '0' := by
      intro hcontra
      have := head_dropWhile_false _ _ _ hcontra
      simp at this
    rw [jsBigInt_digits _ hda hne hh, hvd, hval]

/-- The decimal string `sign ++ whole ++ "." ++ frac` (vocabulary for stating
the fixed-point claims over all decimal strings). -/
def mkDecimalString (neg : Bool) (whole frac : List Char) : String :=
  ⟨(if neg then ['-'] else []) ++ (whole ++ '.' :: frac)⟩

/-- The integer string `sign ++ whole` (no decimal point). -/
def mkIntString (neg : Bool) (whole : List Char) : String :=
  ⟨(if neg then ['-'] else []) ++ whole⟩

/-- The sign factor of a decimal string. -/
def intSign (neg : Bool) : Int := if neg then -1 else 1

theorem head_digits_not_sign (whole : List Char) (hw : whole.all isDigitChar = true)
    (c : Char) (hc : c = '-' ∨ c = '+') : whole.head? ≠ some c := by
  cases whole with
  | nil => simp
  | cons x xs =>
    simp only [List.all_cons, Bool.and_eq_true] at hw
    have hx : 48 ≤ x.toNat ∧ x.toNat ≤ 57 := by simpa [isDigitChar] using hw.1
    simp only [List.head?_cons, ne_eq, Option.some.injEq]
    intro he
    subst he
    rcases hc with hc | hc <;> subst hc
    · have hd : '-'.toNat = 45 := rfl
      omega
    · have hd : '+'.toNat = 43 := rfl
      omega

theorem head_decimal_not_sign (whole frac : List Char)
    (hw : whole.all isDigitChar = true) (c : Char) (hc : c = '-' ∨ c = '+') :
    (whole ++ '.' :: frac).head? ≠ some c := by
  cases whole with
  | nil =>
    simp only [List.nil_append, List.head?_cons, ne_eq, Option.some.injEq]
    intro he
    subst he
    rcases hc with hc | hc <;> simp at hc
  | cons x xs =>
    simp only [List.cons_append, List.head?_cons]
    have := head_digits_not_sign (x :: xs) hw c hc
    simpa using this

theorem decimalToFixed_decimal (neg : Bool) (whole frac : List Char) (d : Nat)
    (hw : whole.all isDigitChar = true) (hf : frac.all isDigitChar = true) :
    decimalToFixed (mkDecimalString neg whole frac) d
      = some (intSign neg * ((natOfDigits whole * 10 ^ d
          + natOfDigits frac * 10 ^ d / 10 ^ frac.length : Nat) : Int)) := by
  cases neg with
  | true =>
    have hdata : (mkDecimalString true whole frac).data
        = '-' :: (whole ++ '.' :: frac) := by
      simp [mkDecimalString]
    simp only [decimalToFixed, hdata, List.head?_cons, true_or, if_true,
      List.drop_succ_cons, List.drop_zero]
    rw [part0_decimal whole frac hw, part1_decimal whole frac hw hf,
      jsBigInt_scaled whole frac d hw hf]
    simp [intSign]
  | false =>
    have hdata : (mkDecimalString false whole frac).data = whole ++ '.' :: frac := by
      simp [mkDecimalString]
    have hm := head_decimal_not_sign whole frac hw '-' (Or.inl rfl)
    have hp := head_decimal_not_sign whole frac hw '+' (Or.inr rfl)
    simp only [decimalToFixed, hdata, eq_false hm, eq_false hp, false_or, if_false]
    rw [part0_decimal whole frac hw, part1_decimal whole frac hw hf,
      jsBigInt_scaled whole frac d hw hf]
    simp [intSign]

theorem decimalToFixed_plain (neg : Bool) (whole : List Char) (d : Nat)
    (hw : whole.all isDigitChar = true) :
    decimalToFixed (mkIntString neg whole) d
      = some (intSign neg * ((natOfDigits whole * 10 ^ d : Nat) : Int)) := by
  cases neg with
  | true =>
    have hdata : (mkIntString true whole).data = '-' :: whole := by
      simp [mkIntString]
    simp only [decimalToFixed, hdata, List.head?_cons, true_or, if_true,
      List.drop_succ_cons, List.drop_zero]
    rw [part0_plain whole hw, part1_plain whole hw,
      jsBigInt_scaled whole [] d hw (by rfl)]
    simp [intSign, natOfDigits]
  | false =>
    have hdata : (mkIntString false whole).data = whole := by
      simp [mkIntString]
    have hm := head_digits_not_sign whole hw '-' (Or.inl rfl)
    have hp := head_digits_not_sign whole hw '+' (Or.inr rfl)
    simp only [decimalToFixed, hdata, eq_false hm, eq_false hp, false_or, if_false]
    rw [part0_plain whole hw, part1_plain whole hw,
      jsBigInt_scaled whole [] d hw (by rfl)]
    simp [intSign, natOfDigits]

/-- Counterexample for C4: the claim's gloss "the result never exceeds the
exact scaled value" fails for negative fractional inputs — truncation is
toward zero, so `decimalToFixed "-1.55" 1 = -15`, which EXCEEDS the exact
scaled value `-15.5` (integrally: `-15 * 10^2 > -(155 * 10^1)`). -/
theorem decimalToFixed_rounds_up_cex :
    decimalToFixed "-1.55" 1 = some (-15)
      ∧ ((-15 : Int) * 10 ^ 2 > -(155 * 10 ^ 1)) := by decide

/-- C4 (amended): the three concrete conversions hold, and for every decimal
string (optional sign, digit characters, optional fractional part) the result
is the truncation TOWARD ZERO of the value scaled by `10^d`, preserving sign:
its magnitude is `⌊|v| * 10^d⌋` and never exceeds the magnitude of the exact
scaled value (for negative fractional inputs the toward-zero result lies above
the exact value, so the signed reading of "never exceeds" fails — see the
counterexample). -/
theorem decimalToFixed_spec :
    decimalToFixed "131425" 6 = some 131425000000
      ∧ decimalToFixed "0.00021" 8 = some 21000
      ∧ decimalToFixed "-1.5" 2 = some (-150)
      ∧ (∀ (neg : Bool) (whole frac : List Char) (d : Nat),
          whole.all isDigitChar = true → frac.all isDigitChar = true →
          decimalToFixed (mkDecimalString neg whole frac) d
            = some (intSign neg * ((natOfDigits whole * 10 ^ d
                + natOfDigits frac * 10 ^ d / 10 ^ frac.length : Nat) : Int)))
      ∧ (∀ (neg : Bool) (whole : List Char) (d : Nat),
          whole.all isDigitChar = true →
          decimalToFixed (mkIntString neg whole) d
            = some (intSign neg * ((natOfDigits whole * 10 ^ d : Nat) : Int)))
      ∧ (∀ (neg : Bool) (whole frac : List Char) (d : Nat) (r : Int),
          whole.all isDigitChar = true → frac.all isDigitChar = true →
          decimalToFixed (mkDecimalString neg whole frac) d = some r →
          r.natAbs * 10 ^ frac.length
            ≤ (natOfDigits whole * 10 ^ frac.length + natOfDigits frac) * 10 ^ d) := by
  refine ⟨by decide, by decide, by decide, decimalToFixed_decimal,
    decimalToFixed_plain, ?_⟩
  intro neg whole frac d r hw hf hr
  rw [decimalToFixed_decimal neg whole frac d hw hf] at hr
  have hnat : ∀ (b : Bool) (n : Nat), (intSign b * (n : Int)).natAbs = n := by
    intro b n
    cases b <;> simp [intSign]
  have habs : r.natAbs
      = natOfDigits whole * 10 ^ d + natOfDigits frac * 10 ^ d / 10 ^ frac.length := by
    simp only [Option.some.injEq] at hr
    subst hr
    exact hnat neg _
  rw [habs, add_mul]
  have h1 : (natOfDigits frac * 10 ^ d / 10 ^ frac.length) * 10 ^ frac.length
      ≤ natOfDigits frac * 10 ^ d := Nat.div_mul_le_self _ _
  have hle := Nat.add_le_add_left h1 ((natOfDigits whole * 10 ^ d) * 10 ^ frac.length)
  have hre : (natOfDigits whole * 10 ^ frac.length + natOfDigits frac) * 10 ^ d
      = natOfDigits whole * 10 ^ d * 10 ^ frac.length + natOfDigits frac * 10 ^ d := by
    ring
  rw [hre]
  exact hle

/-- Witness for C4 (amended): the general truncation formula evaluated at the
decimal string `"2.5"` with 1 decimal. -/
theorem decimalToFixed_spec_witness :
    decimalToFixed (mkDecimalString false ['2'] ['5']) 1
      = some (intSign false * ((natOfDigits ['2'] * 10 ^ 1
          + natOfDigits ['5'] * 10 ^ 1 / 10 ^ (['5'] : List Char).length : Nat) : Int)) :=
  decimalToFixed_spec.2.2.2.1 false ['2'] ['5'] 1 (by decide) (by decide)

/-- Counterexample for C5: the time-in-force mapping is NOT case-insensitive.
The all-lowercase string `"gtc"` (whose case-insensitive form is `"gtc"`) is
rejected with `UnsupportedTimeInForce` instead of mapping to GTC. -/
theorem tif_lowercase_cex :
    toTimeInForceValue "gtc"
        = Except.error (AdapterError.unsupportedTimeInForce "gtc")
      ∧ toTimeInForceValue "gtc" ≠ Except.ok TimeInForceValue.GTC :=
  ⟨by simp [toTimeInForceValue], by simp [toTimeInForceValue]⟩

/-- C5 (amended): the mapping is case-sensitive on exactly the six spellings
the switch lists: `Gtc`/`GTC` ↦ GTC, `Ioc`/`IOC` ↦ IOC, `Alo`/`ALO` ↦ ALO,
and every other string (lowercase forms included) fails with
`UnsupportedTimeInForce`. -/
theorem toTimeInForceValue_spec (s : String) :
    (toTimeInForceValue s = Except.ok TimeInForceValue.GTC ↔ s = "Gtc" ∨ s = "GTC")
      ∧ (toTimeInForceValue s = Except.ok TimeInForceValue.IOC ↔ s = "Ioc" ∨ s = "IOC")
      ∧ (toTimeInForceValue s = Except.ok TimeInForceValue.ALO ↔ s = "Alo" ∨ s = "ALO")
      ∧ (toTimeInForceValue s = Except.error (AdapterError.unsupportedTimeInForce s)
          ↔ ¬(s = "Gtc" ∨ s = "GTC" ∨ s = "Ioc" ∨ s = "IOC" ∨ s = "Alo" ∨ s = "ALO")) := by
  unfold toTimeInForceValue
  split_ifs with h1 h2 h3 <;> simp_all <;>
    first
      | (rcases h1 with h | h <;> subst h <;> simp_all)
      | (rcases h2 with h | h <;> subst h <;> simp_all)

/-! ## Adapter data model (hyperliquid.ts)

JavaScript objects are embedded as structures whose runtime-optional fields
are `Option`s (the TS interfaces declare some of them required, but the code
guards them with `=== undefined` checks, so the runtime shape is what
matters).  A market identifier `string | number` is the `MarketIdent` sum.
`bigint`/integral `number` values are `Int`.  Wall-clock time (`Date.now()`)
is an explicit millisecond parameter. -/

/-- `string | number` market identifier: a symbol or a numeric index. -/
inductive MarketIdent where
  | sym (s : String)
  | idx (n : Nat)
deriving DecidableEq, Repr

/-- `HyperliquidMarketConfig`. -/
structure HyperliquidMarketConfig where
  index : Nat
  symbol : String
  marketId : Int
  baseDecimals : Nat
  quoteDecimals : Nat
deriving DecidableEq, Repr

/-- `HyperliquidOrderType`: only `t.limit.tif` is read by the adapter (via
optional chaining), so the type is collapsed to that field. -/
structure HyperliquidOrderType where
  limit : Option String
deriving DecidableEq, Repr

/-- `HyperliquidOrderRequest` `{a, b, p, s, r, t, c}`; `a` and `t` are read
through `undefined` guards / optional chaining, so they are `Option`s. -/
structure HyperliquidOrderRequest where
  a : Option MarketIdent
  b : Bool
  p : String
  s : String
  r : Bool
  t : Option HyperliquidOrderType
  c : Option String
deriving DecidableEq, Repr

/-- One element of `action.cancels`: at runtime either a
`HyperliquidCancelRequest` `{a, o}` or a `HyperliquidCancelByCloidRequest`
`{asset, cloid}` (distinguished by `cloid !== undefined`); the embedding
carries all four optional fields.  `o` is its `BigInt`-converted value. -/
structure HyperliquidCancelEntry where
  a : Option MarketIdent
  o : Option Int
  asset : Option MarketIdent
  cloid : Option String
deriving DecidableEq, Repr

/-- `HyperliquidModifyRequest` `{oid, order}`; `oid` is its
`BigInt`-converted value. -/
structure HyperliquidModifyRequest where
  oid : Int
  order : HyperliquidOrderRequest
deriving DecidableEq, Repr

/-- `HyperliquidExchangeAction`.  `flat` is the action object itself
reinterpreted as an order — the source's
`action as unknown as HyperliquidOrderRequest` cast in the `"order"` case
reads order fields directly off the action object, and the embedding carries
that view explicitly.  `amount` is kept as its string form (`String(amount)`);
`recipient` as an already-parsed key (`new PublicKey(recipient)` parsing of
base58 is outside the adapter's logic); `marketId`, `leverage` and `oid` as
their numeric values. -/
structure HyperliquidExchangeAction where
  type : String
  order : Option HyperliquidOrderRequest
  cancels : Option (List HyperliquidCancelEntry)
  asset : Option MarketIdent
  leverage : Option Int
  amount : Option String
  marketId : Option Int
  recipient : Option Pubkey
  orders : Option (List HyperliquidOrderRequest)
  modifies : Option (List HyperliquidModifyRequest)
  oid : Option Int
  flat : HyperliquidOrderRequest
deriving DecidableEq, Repr

/-- `HyperliquidExchangeRequest` `{action, nonce}` (`nonce` is its
`BigInt`-converted value). -/
structure HyperliquidExchangeRequest where
  action : HyperliquidExchangeAction
  nonce : Int
deriving DecidableEq, Repr

/-- `HyperliquidPermitContext`; the two `Map`s are association lists with
`Map.get` lookup. -/
structure HyperliquidPermitContext where
  programId : Pubkey
  clusterType : ClusterType
  authorizer : Pubkey
  relayer : Option Pubkey
  expirySeconds : Option Nat
  hlWindowK : Option Nat
  maxFeeQuote : Option Int
  bySymbol : List (String × HyperliquidMarketConfig)
  byIndex : List (Nat × HyperliquidMarketConfig)
deriving DecidableEq, Repr

/-- `resolveMarket` (hyperliquid.ts): a numeric identifier is looked up by
index, a string by symbol; a missing entry throws `Unknown market ...`.  An
`undefined` identifier (possible at the `"cancel"`/`"batchOrder"` call sites
at runtime) is looked up as the absent symbol key and also fails. -/
def resolveMarket (ident : Option MarketIdent) (ctx : HyperliquidPermitContext) :
    Except AdapterError HyperliquidMarketConfig :=
  match ident with
  | some (.idx n) =>
    match ctx.byIndex.lookup n with
    | some m => .ok m
    | none => .error .unknownMarket
  | some (.sym s) =>
    match ctx.bySymbol.lookup s with
    | some m => .ok m
    | none => .error .unknownMarket
  | none => .error .unknownMarket

/-- `BigInt(x)` on an optional already-numeric value: `BigInt(undefined)`
throws. -/
def liftBigInt (v : Option Int) : Except AdapterError Int :=
  match v with
  | some n => .ok n
  | none => .error .bigIntConversion

/-- UTF-8 bytes of a string (`Buffer.from(c)`); the client-id strings used
here are ASCII, for which the code points are the bytes. -/
def strBytes (s : String) : List Nat := s.data.map Char.toNat

/-- `BigInt("0x" + hex(bytes))`: the bytes read as a big-endian base-256
integer. -/
def natBytesToInt (l : List Nat) : Int :=
  l.foldl (fun acc b => acc * 256 + b) 0

/-- `ensureClientId` (hyperliquid.ts): a missing or empty (falsy) `order.c`
is overwritten with `Date.now().toString()`; then `BigInt(order.c)` is
attempted, and on failure the id is the hex hash of the string's bytes, which
is also written back into `order.c`.  Returns the id together with the
(possibly mutated) order. -/
def ensureClientId (timeMs : Nat) (o : HyperliquidOrderRequest) :
    Int × HyperliquidOrderRequest :=
  let c := match o.c with
    | none => toString timeMs
    | some s => if s = "" then toString timeMs else s
  let o1 := { o with c := some c }
  match jsBigInt? c with
  | some v => (v, o1)
  | none =>
    let hash := natBytesToInt (strBytes c)
    (hash, { o1 with c := some (toString hash) })

/-- `buildPlaceAction` (hyperliquid.ts): client id first (mutating), then the
fixed-point price and size, then the time in force; any conversion throw
propagates. -/
def buildPlaceAction (timeMs : Nat) (o : HyperliquidOrderRequest)
    (m : HyperliquidMarketConfig) :
    Except AdapterError (PermitAction × HyperliquidOrderRequest) :=
  let pr := ensureClientId timeMs o
  match liftBigInt (decimalToFixed o.p m.quoteDecimals) with
  | .error err => .error err
  | .ok price =>
    match liftBigInt (decimalToFixed o.s m.baseDecimals) with
    | .error err => .error err
    | .ok size =>
      match toTimeInForceValue ((o.t.bind HyperliquidOrderType.limit).getD "Gtc") with
      | .error err => .error err
      | .ok tif =>
        .ok (.Place m.marketId pr.1 (if o.b then 0 else 1) size (some price) tif
          o.r none 0 none, pr.2)

/-- `buildModifyAction` (hyperliquid.ts). -/
def buildModifyAction (timeMs : Nat) (mreq : HyperliquidModifyRequest)
    (m : HyperliquidMarketConfig) :
    Except AdapterError (PermitAction × HyperliquidModifyRequest) :=
  let o := mreq.order
  let pr := ensureClientId timeMs o
  match liftBigInt (decimalToFixed o.p m.quoteDecimals) with
  | .error err => .error err
  | .ok price =>
    match liftBigInt (decimalToFixed o.s m.baseDecimals) with
    | .error err => .error err
    | .ok size =>
      match toTimeInForceValue ((o.t.bind HyperliquidOrderType.limit).getD "Gtc") with
      | .error err => .error err
      | .ok tif =>
        .ok (.Modify m.marketId mreq.oid pr.1 (if o.b then 0 else 1) size
          (some price) tif o.r none 0 none, { mreq with order := pr.2 })

/-- `interface PermitActionInfo { permitAction; nonce }`. -/
structure PermitActionInfo where
  permitAction : PermitAction
  nonce : Int
deriving DecidableEq, Repr

/-- The `"cancel"` forEach: each entry resolves its market by `a` and takes
`BigInt(o)`, with nonce `baseNonce + idx` (passed here as the running
nonce `n`). -/
def buildCancelActions (ctx : HyperliquidPermitContext) :
    List HyperliquidCancelEntry → Int → Except AdapterError (List PermitActionInfo)
  | [], _ => .ok []
  | e :: es, n =>
    match resolveMarket e.a ctx with
    | .error err => .error err
    | .ok m =>
      match liftBigInt e.o with
      | .error err => .error err
      | .ok oid =>
        match buildCancelActions ctx es (n + 1) with
        | .error err => .error err
        | .ok rest => .ok (⟨.CancelById m.marketId oid, n⟩ :: rest)

/-- The `"cancelByCloid"` forEach: entries without `cloid` throw; the market
resolves by `asset` and the client id is `BigInt(cloid)`. -/
def buildCancelByCloidActions (ctx : HyperliquidPermitContext) :
    List HyperliquidCancelEntry → Int → Except AdapterError (List PermitActionInfo)
  | [], _ => .ok []
  | e :: es, n =>
    match e.cloid with
    | none => .error .cancelByCloidFields
    | some cloid =>
      match resolveMarket e.asset ctx with
      | .error err => .error err
      | .ok m =>
        match liftBigInt (jsBigInt? cloid) with
        | .error err => .error err
        | .ok cid =>
          match buildCancelByCloidActions ctx es (n + 1) with
          | .error err => .error err
          | .ok rest => .ok (⟨.CancelByClientId m.marketId cid, n⟩ :: rest)

/-- The `"batchOrder"` forEach: returns the action infos together with the
mutated order objects. -/
def buildBatchOrderActions (ctx : HyperliquidPermitContext) (timeMs : Nat) :
    List HyperliquidOrderRequest → Int →
      Except AdapterError (List PermitActionInfo × List HyperliquidOrderRequest)
  | [], _ => .ok ([], [])
  | o :: os, n =>
    match resolveMarket o.a ctx with
    | .error err => .error err
    | .ok m =>
      match buildPlaceAction timeMs o m with
      | .error err => .error err
      | .ok (pa, o1) =>
        match buildBatchOrderActions ctx timeMs os (n + 1) with
        | .error err => .error err
        | .ok (rest, os1) => .ok (⟨pa, n⟩ :: rest, o1 :: os1)

/-- The `"modifyBatch"` forEach: returns the action infos together with the
mutated modify entries. -/
def buildModifyBatchActions (ctx : HyperliquidPermitContext) (timeMs : Nat) :
    List HyperliquidModifyRequest → Int →
      Except AdapterError (List PermitActionInfo × List HyperliquidModifyRequest)
  | [], _ => .ok ([], [])
  | mr :: mrs, n =>
    match resolveMarket mr.order.a ctx with
    | .error err => .error err
    | .ok m =>
      match buildModifyAction timeMs mr m with
      | .error err => .error err
      | .ok (pa, mr1) =>
        match buildModifyBatchActions ctx timeMs mrs (n + 1) with
        | .error err => .error err
        | .ok (rest, mrs1) => .ok (⟨pa, n⟩ :: rest, mr1 :: mrs1)

/-- `buildPermitActions` (hyperliquid.ts): the switch over `action.type`.
Returns the action infos together with the action object after any client-id
mutations (in the source the mutation happens in place). -/
def buildPermitActions (payload : HyperliquidExchangeRequest)
    (ctx : HyperliquidPermitContext) (timeMs : Nat) :
    Except AdapterError (List PermitActionInfo × HyperliquidExchangeAction) :=
  let action := payload.action
  let baseNonce := payload.nonce
  if action.type = "order" then
    -- `action.order ?? (action as unknown as HyperliquidOrderRequest)`
    let o := action.order.getD action.flat
    if o.a = none then .ok ([], action)
    else
      match resolveMarket o.a ctx with
      | .error err => .error err
      | .ok m =>
        match buildPlaceAction timeMs o m with
        | .error err => .error err
        | .ok (pa, o1) =>
          .ok ([⟨pa, baseNonce⟩],
            if action.order.isSome then { action with order := some o1 }
            else { action with flat := o1 })
  else if action.type = "cancel" then
    (buildCancelActions ctx (action.cancels.getD []) baseNonce).map
      fun infos => (infos, action)
  else if action.type = "cancelByCloid" then
    (buildCancelByCloidActions ctx (action.cancels.getD []) baseNonce).map
      fun infos => (infos, action)
  else if action.type = "batchOrder" then
    (buildBatchOrderActions ctx timeMs (action.orders.getD []) baseNonce).map
      fun p => (p.1, { action with orders := action.orders.map fun _ => p.2 })
  else if action.type = "updateLeverage" then
    if action.asset = none then .ok ([], action)
    else
      (resolveMarket action.asset ctx).map fun m =>
        ([⟨.SetLeverage m.marketId (min ((action.leverage.getD 0) * 100) 65535) none,
          baseNonce⟩], action)
  else if action.type = "faucet" then
    let mId := action.marketId.getD 64
    match decimalToFixed (action.amount.getD "0") 6 with
    | none => .error .invalidFaucet
    | some amount =>
      let recipient := action.recipient.getD ctx.authorizer
      .ok ([⟨.Faucet mId amount recipient, baseNonce⟩], action)
  else if action.type = "withdraw" then
    match action.amount with
    | none => .ok ([], action)
    | some amt =>
      match decimalToFixed amt 6 with
      | none => .error .bigIntConversion
      | some amountFixed =>
        .ok ([⟨.Withdraw amountFixed ctx.authorizer none, baseNonce⟩], action)
  else if action.type = "noop" then .ok ([⟨.Noop, baseNonce⟩], action)
  else if action.type = "modify" then
    match action.order with
    | none => .ok ([], action)
    | some o =>
      match resolveMarket o.a ctx with
      | .error err => .error err
      | .ok m =>
        match buildModifyAction timeMs ⟨action.oid.getD 0, o⟩ m with
        | .error err => .error err
        | .ok (pa, mr1) =>
          .ok ([⟨pa, baseNonce⟩], { action with order := some mr1.order })
  else if action.type = "modifyBatch" then
    (buildModifyBatchActions ctx timeMs (action.modifies.getD []) baseNonce).map
      fun p => (p.1, { action with modifies := action.modifies.map fun _ => p.2 })
  else .ok ([], action)

/-- `buildPermitEnvelopesFromExchangeRequest` (hyperliquid.ts): map every
action info to an envelope with the context's domain, authorizer, HlWindow
replay mode, default expiry/fee and the assigned nonce.  Returns the
envelopes together with the request after any client-id mutations. -/
def buildPermitEnvelopesFromExchangeRequest
    (request : HyperliquidExchangeRequest) (ctx : HyperliquidPermitContext)
    (timeMs : Nat) :
    Except AdapterError (List PermitEnvelopeV1 × HyperliquidExchangeRequest) :=
  (buildPermitActions request ctx timeMs).map fun p =>
    (p.1.map fun info =>
      { domain := ⟨ctx.programId, 1, ctx.clusterType⟩,
        authorizer := ctx.authorizer,
        keyType := .Ed25519,
        action := info.permitAction,
        mode := .HlWindow (ctx.hlWindowK.getD 128),
        expiresUnix := ((timeMs / 1000 + ctx.expirySeconds.getD 60 : Nat) : Int),
        maxFeeQuote := ctx.maxFeeQuote.getD 1000000,
        relayer := ctx.relayer,
        nonce := info.nonce },
     { request with action := p.2 })

/-! ## Batch nonce sequencing -/

instance {ε α : Type} [DecidableEq ε] [DecidableEq α] :
    DecidableEq (Except ε α) := fun x y =>
  match x, y with
  | .ok a, .ok b =>
    if h : a = b then isTrue (by rw [h]) else isFalse (by simp [h])
  | .error a, .error b =>
    if h : a = b then isTrue (by rw [h]) else isFalse (by simp [h])
  | .ok _, .error _ => isFalse (by simp)
  | .error _, .ok _ => isFalse (by simp)

theorem buildCancelActions_spec (ctx : HyperliquidPermitContext)
    (es : List HyperliquidCancelEntry) (n : Int) (infos : List PermitActionInfo)
    (h : buildCancelActions ctx es n = .ok infos) :
    infos.length = es.length
      ∧ ∀ i (hi : i < infos.length), (infos.get ⟨i, hi⟩).nonce = n + i := by
  induction es generalizing n infos with
  | nil =>
    simp only [buildCancelActions, Except.ok.injEq] at h
    subst h
    simp
  | cons e es ih =>
    simp only [buildCancelActions] at h
    cases hm : resolveMarket e.a ctx with
    | error err => rw [hm] at h; simp at h
    | ok m =>
      rw [hm] at h
      cases ho : liftBigInt e.o with
      | error err => rw [ho] at h; simp at h
      | ok oid =>
        rw [ho] at h
        cases hr : buildCancelActions ctx es (n + 1) with
        | error err => rw [hr] at h; simp at h
        | ok rest =>
          rw [hr] at h
          simp only [Except.ok.injEq] at h
          subst h
          obtain ⟨hlen, hnon⟩ := ih (n + 1) rest hr
          refine ⟨by simp [hlen], ?_⟩
          intro i hi
          cases i with
          | zero => simp
          | succ j =>
            simp only [List.get_cons_succ]
            rw [hnon j (by simpa using hi)]
            push_cast
            ring

theorem buildCancelByCloidActions_spec (ctx : HyperliquidPermitContext)
    (es : List HyperliquidCancelEntry) (n : Int) (infos : List PermitActionInfo)
    (h : buildCancelByCloidActions ctx es n = .ok infos) :
    infos.length = es.length
      ∧ ∀ i (hi : i < infos.length), (infos.get ⟨i, hi⟩).nonce = n + i := by
  induction es generalizing n infos with
  | nil =>
    simp only [buildCancelByCloidActions, Except.ok.injEq] at h
    subst h
    simp
  | cons e es ih =>
    simp only [buildCancelByCloidActions] at h
    split at h
    · simp at h
    · split at h
      · simp at h
      · split at h
        · simp at h
        · split at h
          · simp at h
          · rename_i cloid heqc m heqm cid heqv rest heqr
            simp only [Except.ok.injEq] at h
            subst h
            obtain ⟨hlen, hnon⟩ := ih (n + 1) rest heqr
            refine ⟨by simp [hlen], ?_⟩
            intro i hi
            cases i with
            | zero => simp
            | succ j =>
              simp only [List.get_cons_succ]
              rw [hnon j (by simpa using hi)]
              push_cast
              ring

theorem buildBatchOrderActions_spec (ctx : HyperliquidPermitContext)
    (timeMs : Nat) (os : List HyperliquidOrderRequest) (n : Int)
    (infos : List PermitActionInfo) (os1 : List HyperliquidOrderRequest)
    (h : buildBatchOrderActions ctx timeMs os n = .ok (infos, os1)) :
    infos.length = os.length
      ∧ ∀ i (hi : i < infos.length), (infos.get ⟨i, hi⟩).nonce = n + i := by
  induction os generalizing n infos os1 with
  | nil =>
    simp only [buildBatchOrderActions, Except.ok.injEq, Prod.mk.injEq] at h
    obtain ⟨h1, h2⟩ := h
    subst h1
    simp
  | cons o os ih =>
    simp only [buildBatchOrderActions] at h
    split at h
    · simp at h
    · split at h
      · simp at h
      · split at h
        · simp at h
        · rename_i m heqm pa o1 heqp rest os2 heqr
          simp only [Except.ok.injEq, Prod.mk.injEq] at h
          obtain ⟨h1, h2⟩ := h
          subst h1
          obtain ⟨hlen, hnon⟩ := ih (n + 1) rest os2 heqr
          refine ⟨by simp [hlen], ?_⟩
          intro i hi
          cases i with
          | zero => simp
          | succ j =>
            simp only [List.get_cons_succ]
            rw [hnon j (by simpa using hi)]
            push_cast
            ring

theorem buildModifyBatchActions_spec (ctx : HyperliquidPermitContext)
    (timeMs : Nat) (mrs : List HyperliquidModifyRequest) (n : Int)
    (infos : List PermitActionInfo) (mrs1 : List HyperliquidModifyRequest)
    (h : buildModifyBatchActions ctx timeMs mrs n = .ok (infos, mrs1)) :
    infos.length = mrs.length
      ∧ ∀ i (hi : i < infos.length), (infos.get ⟨i, hi⟩).nonce = n + i := by
  induction mrs generalizing n infos mrs1 with
  | nil =>
    simp only [buildModifyBatchActions, Except.ok.injEq, Prod.mk.injEq] at h
    obtain ⟨h1, h2⟩ := h
    subst h1
    simp
  | cons mr mrs ih =>
    simp only [buildModifyBatchActions] at h
    split at h
    · simp at h
    · split at h
      · simp at h
      · split at h
        · simp at h
        · rename_i m heqm pa mr1 heqp rest mrs2 heqr
          simp only [Except.ok.injEq, Prod.mk.injEq] at h
          obtain ⟨h1, h2⟩ := h
          subst h1
          obtain ⟨hlen, hnon⟩ := ih (n + 1) rest mrs2 heqr
          refine ⟨by simp [hlen], ?_⟩
          intro i hi
          cases i with
          | zero => simp
          | succ j =>
            simp only [List.get_cons_succ]
            rw [hnon j (by simpa using hi)]
            push_cast
            ring

/-- The number of sub-items of a batch exchange action (the `k` of claim C6). -/
def subItemCount (a : HyperliquidExchangeAction) : Nat :=
  if a.type = "cancel" ∨ a.type = "cancelByCloid" then (a.cancels.getD []).length
  else if a.type = "batchOrder" then (a.orders.getD []).length
  else if a.type = "modifyBatch" then (a.modifies.getD []).length
  else 0

/-- C6: for every batch exchange request (`cancel`, `cancelByCloid`,
`batchOrder`, `modifyBatch`) with base nonce `N` and `k` sub-items, a
successful `buildPermitEnvelopesFromExchangeRequest` produces `k` envelopes
whose nonces are `N, N+1, ..., N+k-1` in input order. -/
theorem batch_nonce_sequencing (req : HyperliquidExchangeRequest)
    (ctx : HyperliquidPermitContext) (timeMs : Nat)
    (es : List PermitEnvelopeV1) (req1 : HyperliquidExchangeRequest)
    (hty : req.action.type = "cancel" ∨ req.action.type = "cancelByCloid"
      ∨ req.action.type = "batchOrder" ∨ req.action.type = "modifyBatch")
    (hok : buildPermitEnvelopesFromExchangeRequest req ctx timeMs = .ok (es, req1)) :
    es.length = subItemCount req.action
      ∧ ∀ i (hi : i < es.length), (es.get ⟨i, hi⟩).nonce = req.nonce + i := by
  simp only [buildPermitEnvelopesFromExchangeRequest] at hok
  cases hba : buildPermitActions req ctx timeMs with
  | error err => rw [hba] at hok; simp [Except.map] at hok
  | ok p =>
    obtain ⟨infos, action1⟩ := p
    rw [hba] at hok
    simp only [Except.map, Except.ok.injEq, Prod.mk.injEq] at hok
    obtain ⟨hes, hreq⟩ := hok
    subst hes
    rcases hty with hty | hty | hty | hty
    · simp only [buildPermitActions, hty, String.reduceEq, if_false, if_true] at hba
      cases hca : buildCancelActions ctx (req.action.cancels.getD []) req.nonce with
      | error err => rw [hca] at hba; simp [Except.map] at hba
      | ok infos2 =>
        rw [hca] at hba
        simp only [Except.map, Except.ok.injEq, Prod.mk.injEq] at hba
        obtain ⟨hi2, ha⟩ := hba
        subst hi2
        obtain ⟨hlen, hnon⟩ := buildCancelActions_spec ctx _ _ _ hca
        refine ⟨by simp [hlen, subItemCount, hty], ?_⟩
        intro i hi
        have hi2 : i < infos2.length := by simpa using hi
        rw [List.get_eq_getElem, List.getElem_map]
        have := hnon i hi2
        rw [List.get_eq_getElem] at this
        simpa using this
    · simp only [buildPermitActions, hty, String.reduceEq, if_false, if_true] at hba
      cases hca : buildCancelByCloidActions ctx (req.action.cancels.getD []) req.nonce with
      | error err => rw [hca] at hba; simp [Except.map] at hba
      | ok infos2 =>
        rw [hca] at hba
        simp only [Except.map, Except.ok.injEq, Prod.mk.injEq] at hba
        obtain ⟨hi2, ha⟩ := hba
        subst hi2
        obtain ⟨hlen, hnon⟩ := buildCancelByCloidActions_spec ctx _ _ _ hca
        refine ⟨by simp [hlen, subItemCount, hty], ?_⟩
        intro i hi
        have hi2 : i < infos2.length := by simpa using hi
        rw [List.get_eq_getElem, List.getElem_map]
        have := hnon i hi2
        rw [List.get_eq_getElem] at this
        simpa using this
    · simp only [buildPermitActions, hty, String.reduceEq, if_false, if_true] at hba
      cases hca : buildBatchOrderActions ctx timeMs (req.action.orders.getD []) req.nonce with
      | error err => rw [hca] at hba; simp [Except.map] at hba
      | ok q =>
        obtain ⟨infos2, os2⟩ := q
        rw [hca] at hba
        simp only [Except.map, Except.ok.injEq, Prod.mk.injEq] at hba
        obtain ⟨hi2, ha⟩ := hba
        subst hi2
        obtain ⟨hlen, hnon⟩ := buildBatchOrderActions_spec ctx timeMs _ _ _ _ hca
        refine ⟨by simp [hlen, subItemCount, hty], ?_⟩
        intro i hi
        have hi2 : i < infos2.length := by simpa using hi
        rw [List.get_eq_getElem, List.getElem_map]
        have := hnon i hi2
        rw [List.get_eq_getElem] at this
        simpa using this
    · simp only [buildPermitActions, hty, String.reduceEq, if_false, if_true] at hba
      cases hca : buildModifyBatchActions ctx timeMs (req.action.modifies.getD []) req.nonce with
      | error err => rw [hca] at hba; simp [Except.map] at hba
      | ok q =>
        obtain ⟨infos2, mrs2⟩ := q
        rw [hca] at hba
        simp only [Except.map, Except.ok.injEq, Prod.mk.injEq] at hba
        obtain ⟨hi2, ha⟩ := hba
        subst hi2
        obtain ⟨hlen, hnon⟩ := buildModifyBatchActions_spec ctx timeMs _ _ _ _ hca
        refine ⟨by simp [hlen, subItemCount, hty], ?_⟩
        intro i hi
        have hi2 : i < infos2.length := by simpa using hi
        rw [List.get_eq_getElem, List.getElem_map]
        have := hnon i hi2
        rw [List.get_eq_getElem] at this
        simpa using this

/-! ## Concrete adapter fixtures -/

/-- A concrete market (index 0, on-chain market id 64). -/
def marketW : HyperliquidMarketConfig :=
  { index := 0, symbol := "BTC-PERP", marketId := 64, baseDecimals := 8,
    quoteDecimals := 6 }

/-- A concrete adapter context over `marketW` with all defaults. -/
def ctxW : HyperliquidPermitContext :=
  { programId := List.replicate 32 9,
    clusterType := .Testnet,
    authorizer := List.replicate 32 8,
    relayer := none,
    expirySeconds := none,
    hlWindowK := none,
    maxFeeQuote := none,
    bySymbol := [("BTC-PERP", marketW)],
    byIndex := [(0, marketW)] }

/-- The all-absent order view of an action object that carries no order
fields (the `flat` cast of a non-order action). -/
def flatNone : HyperliquidOrderRequest :=
  { a := none, b := false, p := "", s := "", r := false, t := none, c := none }

/-- An exchange action with every optional field absent; fixtures override
the fields they use. -/
def actionNone : HyperliquidExchangeAction :=
  { type := "", order := none, cancels := none, asset := none, leverage := none,
    amount := none, marketId := none, recipient := none, orders := none,
    modifies := none, oid := none, flat := flatNone }

/-- A 3-item `cancel` batch action. -/
def cancelActionW : HyperliquidExchangeAction :=
  { actionNone with
    type := "cancel"
    cancels := some
      [⟨some (.idx 0), some 11, none, none⟩,
       ⟨some (.idx 0), some 22, none, none⟩,
       ⟨some (.idx 0), some 33, none, none⟩] }

/-- A 3-item `cancel` batch request with base nonce 500. -/
def cancelReqW : HyperliquidExchangeRequest :=
  { action := cancelActionW, nonce := 500 }

/-- The envelope the adapter produces for `ctxW` at time 0 with the given
action and nonce. -/
def envOfW (a : PermitAction) (n : Int) : PermitEnvelopeV1 :=
  { domain := ⟨List.replicate 32 9, 1, .Testnet⟩,
    authorizer := List.replicate 32 8,
    keyType := .Ed25519,
    action := a,
    mode := .HlWindow 128,
    expiresUnix := 60,
    maxFeeQuote := 1000000,
    relayer := none,
    nonce := n }

/-- The three envelopes produced for `cancelReqW`. -/
def cancelEnvsW : List PermitEnvelopeV1 :=
  [envOfW (.CancelById 64 11) 500,
   envOfW (.CancelById 64 22) 501,
   envOfW (.CancelById 64 33) 502]

/-- Witness for C6: the 3-item cancel batch with base nonce 500 produces
envelopes with nonces 500, 501, 502. -/
theorem batch_nonce_sequencing_witness :
    cancelEnvsW.length = subItemCount cancelReqW.action
      ∧ (cancelEnvsW.get ⟨2, by decide⟩).nonce = cancelReqW.nonce + 2 := by
  have h := batch_nonce_sequencing cancelReqW ctxW 0 cancelEnvsW cancelReqW
    (Or.inl rfl) (by decide)
  exact ⟨h.1, h.2 2 (by decide)⟩

/-! ## updateLeverage basis points -/

/-- Counterexample for C8: `Math.min(leverage * 100, 65535)` clamps only
above.  With leverage −1 the produced `targetLeverageBps` is −100, outside
the claimed range `[0, 65535]`. -/
def negLeverageReqW : HyperliquidExchangeRequest :=
  { action := { actionNone with
      type := "updateLeverage"
      asset := some (.idx 0)
      leverage := some (-1) },
    nonce := 1 }

/-- Counterexample for C8 (see `negLeverageReqW`). -/
theorem updateLeverage_no_lower_clamp_cex :
    buildPermitEnvelopesFromExchangeRequest negLeverageReqW ctxW 0
        = .ok ([envOfW (.SetLeverage 64 (-100) none) 1], negLeverageReqW)
      ∧ ((-100 : Int) < 0) :=
  ⟨by decide, by decide⟩

/-- C8 (amended): for every `updateLeverage` request with leverage multiplier
`L`, the produced `SetLeverage` action's `targetLeverageBps` equals
`min (L*100) 65535` — basis points clamped ABOVE to the 16-bit maximum, with
no lower clamp (a negative multiplier yields negative basis points). -/
theorem updateLeverage_bps (req : HyperliquidExchangeRequest)
    (ctx : HyperliquidPermitContext) (timeMs : Nat)
    (es : List PermitEnvelopeV1) (req1 : HyperliquidExchangeRequest)
    (e : PermitEnvelopeV1)
    (hty : req.action.type = "updateLeverage")
    (hok : buildPermitEnvelopesFromExchangeRequest req ctx timeMs = .ok (es, req1))
    (he : e ∈ es) :
    ∃ mid, e.action = PermitAction.SetLeverage mid
      (min ((req.action.leverage.getD 0) * 100) 65535) none := by
  simp only [buildPermitEnvelopesFromExchangeRequest] at hok
  cases hba : buildPermitActions req ctx timeMs with
  | error err => rw [hba] at hok; simp [Except.map] at hok
  | ok p =>
    obtain ⟨infos, action1⟩ := p
    rw [hba] at hok
    simp only [Except.map, Except.ok.injEq, Prod.mk.injEq] at hok
    obtain ⟨hes, hreq⟩ := hok
    subst hes
    simp only [buildPermitActions, hty, String.reduceEq, if_false, if_true] at hba
    by_cases hasset : req.action.asset = none
    · rw [if_pos hasset] at hba
      simp only [Except.ok.injEq, Prod.mk.injEq] at hba
      obtain ⟨h1, h2⟩ := hba
      subst h1
      simp at he
    · rw [if_neg hasset] at hba
      cases hm : resolveMarket req.action.asset ctx with
      | error err => rw [hm] at hba; simp [Except.map] at hba
      | ok m =>
        rw [hm] at hba
        simp only [Except.map, Except.ok.injEq, Prod.mk.injEq] at hba
        obtain ⟨h1, h2⟩ := hba
        subst h1
        simp only [List.map_cons, List.map_nil, List.mem_singleton] at he
        subst he
        exact ⟨m.marketId, rfl⟩

/-- A well-formed `updateLeverage` request with leverage multiplier 5. -/
def leverageReqW : HyperliquidExchangeRequest :=
  { action := { actionNone with
      type := "updateLeverage"
      asset := some (.idx 0)
      leverage := some 5 },
    nonce := 1 }

/-- Witness for C8 (amended): leverage 5 produces 500 basis points. -/
theorem updateLeverage_bps_witness :
    ∃ mid, (envOfW (.SetLeverage 64 500 none) 1).action
      = PermitAction.SetLeverage mid
          (min ((leverageReqW.action.leverage.getD 0) * 100) 65535) none :=
  updateLeverage_bps leverageReqW ctxW 0 [envOfW (.SetLeverage 64 500 none) 1]
    leverageReqW (envOfW (.SetLeverage 64 500 none) 1) rfl (by decide) (by decide)

/-! ## Unsupported or incomplete requests -/

/-- The action-type strings the adapter's switch handles. -/
def supportedActionTypes : List String :=
  ["order", "cancel", "cancelByCloid", "batchOrder", "updateLeverage",
   "faucet", "withdraw", "noop", "modify", "modifyBatch"]

/-- C10 (amended): a request whose action type is outside the supported set
produces an empty envelope list without raising an error, and so do an
`order` request whose EFFECTIVE order object (the `order` sub-object if
present, else the action object itself read as an order through the source's
cast) is missing the asset field `a`, a `modify` request missing its `order`
sub-object, an `updateLeverage` request missing `asset`, and a `withdraw`
request missing `amount`.  An `order` request merely missing the `order`
sub-object is NOT covered: the cast view can still carry order fields and
produce an envelope (see the counterexample). -/
theorem unsupported_or_missing_empty (req : HyperliquidExchangeRequest)
    (ctx : HyperliquidPermitContext) (timeMs : Nat)
    (h : req.action.type ∉ supportedActionTypes
      ∨ (req.action.type = "order"
          ∧ (req.action.order.getD req.action.flat).a = none)
      ∨ (req.action.type = "modify" ∧ req.action.order = none)
      ∨ (req.action.type = "updateLeverage" ∧ req.action.asset = none)
      ∨ (req.action.type = "withdraw" ∧ req.action.amount = none)) :
    buildPermitEnvelopesFromExchangeRequest req ctx timeMs = .ok ([], req) := by
  rcases h with h | ⟨h1, h2⟩ | ⟨h1, h2⟩ | ⟨h1, h2⟩ | ⟨h1, h2⟩
  · simp only [supportedActionTypes, List.mem_cons, List.not_mem_nil, or_false,
      not_or] at h
    obtain ⟨ho, hc, hcc, hbo, hul, hf, hw, hn, hm, hmb⟩ := h
    simp only [buildPermitEnvelopesFromExchangeRequest, buildPermitActions]
    rw [if_neg ho, if_neg hc, if_neg hcc, if_neg hbo, if_neg hul, if_neg hf,
      if_neg hw, if_neg hn, if_neg hm, if_neg hmb]
    simp [Except.map]
  · simp only [buildPermitEnvelopesFromExchangeRequest, buildPermitActions, h1,
      String.reduceEq, if_false, if_true, h2]
    simp [Except.map]
  · simp only [buildPermitEnvelopesFromExchangeRequest, buildPermitActions, h1,
      String.reduceEq, if_false, if_true, h2]
    simp [Except.map]
  · simp only [buildPermitEnvelopesFromExchangeRequest, buildPermitActions, h1,
      String.reduceEq, if_false, if_true, h2, if_pos]
    simp [Except.map]
  · simp only [buildPermitEnvelopesFromExchangeRequest, buildPermitActions, h1,
      String.reduceEq, if_false, if_true, h2]
    simp [Except.map]

/-- An exchange request with the unsupported action type `spotSend`. -/
def spotSendReqW : HyperliquidExchangeRequest :=
  { action := { actionNone with type := "spotSend" }, nonce := 3 }

/-- Witness for C10: the unsupported `spotSend` action yields an empty
envelope list with no error. -/
theorem unsupported_or_missing_empty_witness :
    buildPermitEnvelopesFromExchangeRequest spotSendReqW ctxW 0
      = .ok ([], spotSendReqW) :=
  unsupported_or_missing_empty spotSendReqW ctxW 0 (Or.inl (by decide))

/-- An `order` action with NO `order` sub-object whose own fields read as an
order (the source's `action as unknown as HyperliquidOrderRequest` cast)
carry a full order: asset index 0, bid, price 100, size 1. -/
def flatOrderActionW : HyperliquidExchangeAction :=
  { actionNone with
    type := "order"
    flat := { a := some (.idx 0), b := true, p := "100", s := "1", r := false,
              t := none, c := none } }

/-- The `order` request missing its `order` sub-object. -/
def flatOrderReqW : HyperliquidExchangeRequest :=
  { action := flatOrderActionW, nonce := 9 }

/-- The envelope the adapter builds for `flatOrderReqW` anyway (client id 0
from the clock at time 0, price and size scaled by the market decimals). -/
def flatOrderEnvsW : List PermitEnvelopeV1 :=
  [envOfW (.Place 64 0 0 100000000 (some 100000000) .GTC false none 0 none) 9]

/-- `flatOrderReqW` as returned: the cast view's client id is filled in. -/
def flatOrderMutReqW : HyperliquidExchangeRequest :=
  { flatOrderReqW with
    action := { flatOrderActionW with
      flat := { a := some (.idx 0), b := true, p := "100", s := "1", r := false,
                t := none, c := some "0" } } }

/-- Counterexample for C10: an `order` request missing its required `order`
sub-object does NOT always produce an empty envelope list — the adapter falls
back to reading the order fields off the action object itself and here emits
one envelope. -/
theorem missing_order_subobject_cex :
    buildPermitEnvelopesFromExchangeRequest flatOrderReqW ctxW 0
        = .ok (flatOrderEnvsW, flatOrderMutReqW)
      ∧ flatOrderReqW.action.order = none ∧ flatOrderEnvsW ≠ [] :=
  ⟨by decide, by decide, by decide⟩

/-! ## What the adapter mutates: the client-id fields -/

/-- Erase an order's client-id field `c` (the one field `ensureClientId` may
overwrite). -/
def scrubOrder (o : HyperliquidOrderRequest) : HyperliquidOrderRequest :=
  { o with c := none }

/-- Erase the client-id field of a modify entry's order. -/
def scrubModify (mr : HyperliquidModifyRequest) : HyperliquidModifyRequest :=
  { mr with order := scrubOrder mr.order }

/-- Erase every client-id field reachable from an exchange action. -/
def scrubExchangeAction (a : HyperliquidExchangeAction) : HyperliquidExchangeAction :=
  { a with
    order := a.order.map scrubOrder
    orders := a.orders.map (List.map scrubOrder)
    modifies := a.modifies.map (List.map scrubModify)
    flat := scrubOrder a.flat }

/-- Erase every client-id field reachable from an exchange request. -/
def scrubRequest (r : HyperliquidExchangeRequest) : HyperliquidExchangeRequest :=
  { r with action := scrubExchangeAction r.action }

theorem ensureClientId_scrub (t : Nat) (o : HyperliquidOrderRequest) :
    scrubOrder (ensureClientId t o).2 = scrubOrder o := by
  unfold ensureClientId
  dsimp only
  split <;> rfl

theorem buildPlaceAction_scrub (t : Nat) (o : HyperliquidOrderRequest)
    (m : HyperliquidMarketConfig) (pa : PermitAction)
    (o1 : HyperliquidOrderRequest)
    (h : buildPlaceAction t o m = .ok (pa, o1)) :
    scrubOrder o1 = scrubOrder o := by
  unfold buildPlaceAction at h
  split at h
  · simp at h
  · split at h
    · simp at h
    · split at h
      · simp at h
      · simp only [Except.ok.injEq, Prod.mk.injEq] at h
        obtain ⟨h1, h2⟩ := h
        subst h2
        exact ensureClientId_scrub t o

theorem buildModifyAction_scrub (t : Nat) (mreq : HyperliquidModifyRequest)
    (m : HyperliquidMarketConfig) (pa : PermitAction)
    (mr1 : HyperliquidModifyRequest)
    (h : buildModifyAction t mreq m = .ok (pa, mr1)) :
    scrubModify mr1 = scrubModify mreq := by
  unfold buildModifyAction at h
  dsimp only at h
  split at h
  · simp at h
  · split at h
    · simp at h
    · split at h
      · simp at h
      · simp only [Except.ok.injEq, Prod.mk.injEq] at h
        obtain ⟨h1, h2⟩ := h
        subst h2
        simp only [scrubModify]
        rw [ensureClientId_scrub t mreq.order]

theorem buildBatchOrderActions_scrub (ctx : HyperliquidPermitContext)
    (t : Nat) (os : List HyperliquidOrderRequest) (n : Int)
    (infos : List PermitActionInfo) (os1 : List HyperliquidOrderRequest)
    (h : buildBatchOrderActions ctx t os n = .ok (infos, os1)) :
    os1.map scrubOrder = os.map scrubOrder := by
  induction os generalizing n infos os1 with
  | nil =>
    simp only [buildBatchOrderActions, Except.ok.injEq, Prod.mk.injEq] at h
    obtain ⟨h1, h2⟩ := h
    subst h2
    rfl
  | cons o os ih =>
    simp only [buildBatchOrderActions] at h
    split at h
    · simp at h
    · split at h
      · simp at h
      · split at h
        · simp at h
        · rename_i x1 m heqm x2 pa o1 heqp x3 rest os2 heqr
          simp only [Except.ok.injEq, Prod.mk.injEq] at h
          obtain ⟨h1, h2⟩ := h
          subst h2
          simp only [List.map_cons]
          rw [buildPlaceAction_scrub t o m pa o1 heqp, ih (n + 1) rest os2 heqr]

theorem buildModifyBatchActions_scrub (ctx : HyperliquidPermitContext)
    (t : Nat) (mrs : List HyperliquidModifyRequest) (n : Int)
    (infos : List PermitActionInfo) (mrs1 : List HyperliquidModifyRequest)
    (h : buildModifyBatchActions ctx t mrs n = .ok (infos, mrs1)) :
    mrs1.map scrubModify = mrs.map scrubModify := by
  induction mrs generalizing n infos mrs1 with
  | nil =>
    simp only [buildModifyBatchActions, Except.ok.injEq, Prod.mk.injEq] at h
    obtain ⟨h1, h2⟩ := h
    subst h2
    rfl
  | cons mr mrs ih =>
    simp only [buildModifyBatchActions] at h
    split at h
    · simp at h
    · split at h
      · simp at h
      · split at h
        · simp at h
        · rename_i x1 m heqm x2 pa mr1 heqp x3 rest mrs2 heqr
          simp only [Except.ok.injEq, Prod.mk.injEq] at h
          obtain ⟨h1, h2⟩ := h
          subst h2
          simp only [List.map_cons]
          rw [buildModifyAction_scrub t mr m pa mr1 heqp, ih (n + 1) rest mrs2 heqr]

theorem scrubExchangeAction_set_order (a : HyperliquidExchangeAction)
    (o1 oo : HyperliquidOrderRequest) (hord : a.order = some oo)
    (hsc : scrubOrder o1 = scrubOrder oo) :
    scrubExchangeAction { a with order := some o1 } = scrubExchangeAction a := by
  obtain ⟨ty, ord, cans, asset, lev, amt, mkt, rcp, ords, mods, oid, fl⟩ := a
  simp only at hord
  subst hord
  simp [scrubExchangeAction, hsc]

theorem scrubExchangeAction_set_flat (a : HyperliquidExchangeAction)
    (o1 : HyperliquidOrderRequest) (hsc : scrubOrder o1 = scrubOrder a.flat) :
    scrubExchangeAction { a with flat := o1 } = scrubExchangeAction a := by
  obtain ⟨ty, ord, cans, asset, lev, amt, mkt, rcp, ords, mods, oid, fl⟩ := a
  simp only at hsc
  simp [scrubExchangeAction, hsc]

theorem scrubExchangeAction_set_orders (a : HyperliquidExchangeAction)
    (os2 : List HyperliquidOrderRequest)
    (hsc : os2.map scrubOrder = (a.orders.getD []).map scrubOrder) :
    scrubExchangeAction { a with orders := a.orders.map fun _ => os2 }
      = scrubExchangeAction a := by
  obtain ⟨ty, ord, cans, asset, lev, amt, mkt, rcp, ords, mods, oid, fl⟩ := a
  simp only at hsc
  cases ords with
  | none => simp [scrubExchangeAction]
  | some os => simp_all [scrubExchangeAction]

theorem scrubExchangeAction_set_modifies (a : HyperliquidExchangeAction)
    (mrs2 : List HyperliquidModifyRequest)
    (hsc : mrs2.map scrubModify = (a.modifies.getD []).map scrubModify) :
    scrubExchangeAction { a with modifies := a.modifies.map fun _ => mrs2 }
      = scrubExchangeAction a := by
  obtain ⟨ty, ord, cans, asset, lev, amt, mkt, rcp, ords, mods, oid, fl⟩ := a
  simp only at hsc
  cases mods with
  | none => simp [scrubExchangeAction]
  | some mrs => simp_all [scrubExchangeAction]

set_option maxHeartbeats 1000000 in
theorem buildPermitActions_scrub (req : HyperliquidExchangeRequest)
    (ctx : HyperliquidPermitContext) (timeMs : Nat)
    (infos : List PermitActionInfo) (action1 : HyperliquidExchangeAction)
    (h : buildPermitActions req ctx timeMs = .ok (infos, action1)) :
    scrubExchangeAction action1 = scrubExchangeAction req.action := by
  simp only [buildPermitActions] at h
  by_cases h1 : req.action.type = "order"
  · rw [if_pos h1] at h
    by_cases ha : (req.action.order.getD req.action.flat).a = none
    · rw [if_pos ha] at h
      simp only [Except.ok.injEq, Prod.mk.injEq] at h
      rw [← h.2]
    · rw [if_neg ha] at h
      cases hres : resolveMarket (req.action.order.getD req.action.flat).a ctx with
      | error err => rw [hres] at h; simp at h
      | ok m =>
        rw [hres] at h
        dsimp only at h
        cases hbp : buildPlaceAction timeMs (req.action.order.getD req.action.flat) m with
        | error err => rw [hbp] at h; simp at h
        | ok p =>
          obtain ⟨pa, o1⟩ := p
          rw [hbp] at h
          simp only [Except.ok.injEq, Prod.mk.injEq] at h
          obtain ⟨hinf, hact⟩ := h
          have hsc := buildPlaceAction_scrub timeMs _ m pa o1 hbp
          cases hord : req.action.order with
          | some oo =>
            have htrue : req.action.order.isSome = true := by rw [hord]; rfl
            rw [htrue] at hact
            simp only [if_true] at hact
            rw [← hact]
            rw [hord] at hsc
            simp only [Option.getD_some] at hsc
            exact scrubExchangeAction_set_order req.action o1 oo hord hsc
          | none =>
            have hfalse : req.action.order.isSome = false := by rw [hord]; rfl
            rw [hfalse] at hact
            simp only [Bool.false_eq_true, if_false] at hact
            rw [← hact]
            rw [hord] at hsc
            simp only [Option.getD_none] at hsc
            exact scrubExchangeAction_set_flat req.action o1 hsc
  · rw [if_neg h1] at h
    by_cases h2 : req.action.type = "cancel"
    · rw [if_pos h2] at h
      cases hc : buildCancelActions ctx (req.action.cancels.getD []) req.nonce with
      | error err => rw [hc] at h; simp [Except.map] at h
      | ok infos2 =>
        rw [hc] at h
        simp only [Except.map, Except.ok.injEq, Prod.mk.injEq] at h
        rw [← h.2]
    · rw [if_neg h2] at h
      by_cases h3 : req.action.type = "cancelByCloid"
      · rw [if_pos h3] at h
        cases hc : buildCancelByCloidActions ctx (req.action.cancels.getD []) req.nonce with
        | error err => rw [hc] at h; simp [Except.map] at h
        | ok infos2 =>
          rw [hc] at h
          simp only [Except.map, Except.ok.injEq, Prod.mk.injEq] at h
          rw [← h.2]
      · rw [if_neg h3] at h
        by_cases h4 : req.action.type = "batchOrder"
        · rw [if_pos h4] at h
          cases hc : buildBatchOrderActions ctx timeMs (req.action.orders.getD []) req.nonce with
          | error err => rw [hc] at h; simp [Except.map] at h
          | ok q =>
            obtain ⟨infos2, os2⟩ := q
            rw [hc] at h
            simp only [Except.map, Except.ok.injEq, Prod.mk.injEq] at h
            rw [← h.2]
            exact scrubExchangeAction_set_orders req.action os2
              (buildBatchOrderActions_scrub ctx timeMs _ _ _ _ hc)
        · rw [if_neg h4] at h
          by_cases h5 : req.action.type = "updateLeverage"
          · rw [if_pos h5] at h
            by_cases hassets : req.action.asset = none
            · rw [if_pos hassets] at h
              simp only [Except.ok.injEq, Prod.mk.injEq] at h
              rw [← h.2]
            · rw [if_neg hassets] at h
              cases hm : resolveMarket req.action.asset ctx with
              | error err => rw [hm] at h; simp [Except.map] at h
              | ok m =>
                rw [hm] at h
                simp only [Except.map, Except.ok.injEq, Prod.mk.injEq] at h
                rw [← h.2]
          · rw [if_neg h5] at h
            by_cases h6 : req.action.type = "faucet"
            · rw [if_pos h6] at h
              cases hdf : decimalToFixed (req.action.amount.getD "0") 6 with
              | none => rw [hdf] at h; simp at h
              | some amount =>
                rw [hdf] at h
                simp only [Except.ok.injEq, Prod.mk.injEq] at h
                rw [← h.2]
            · rw [if_neg h6] at h
              by_cases h7 : req.action.type = "withdraw"
              · rw [if_pos h7] at h
                cases ham : req.action.amount with
                | none =>
                  rw [ham] at h
                  simp only [Except.ok.injEq, Prod.mk.injEq] at h
                  rw [← h.2]
                | some amt =>
                  rw [ham] at h
                  dsimp only at h
                  cases hdf : decimalToFixed amt 6 with
                  | none => rw [hdf] at h; simp at h
                  | some amountFixed =>
                    rw [hdf] at h
                    simp only [Except.ok.injEq, Prod.mk.injEq] at h
                    rw [← h.2]
              · rw [if_neg h7] at h
                by_cases h8 : req.action.type = "noop"
                · rw [if_pos h8] at h
                  simp only [Except.ok.injEq, Prod.mk.injEq] at h
                  rw [← h.2]
                · rw [if_neg h8] at h
                  by_cases h9 : req.action.type = "modify"
                  · rw [if_pos h9] at h
                    cases hord : req.action.order with
                    | none =>
                      rw [hord] at h
                      simp only [Except.ok.injEq, Prod.mk.injEq] at h
                      rw [← h.2]
                    | some o =>
                      rw [hord] at h
                      dsimp only at h
                      cases hm : resolveMarket o.a ctx with
                      | error err => rw [hm] at h; simp at h
                      | ok m =>
                        rw [hm] at h
                        dsimp only at h
                        cases hbm : buildModifyAction timeMs ⟨req.action.oid.getD 0, o⟩ m with
                        | error err => rw [hbm] at h; simp at h
                        | ok p =>
                          obtain ⟨pa, mr1⟩ := p
                          rw [hbm] at h
                          simp only [Except.ok.injEq, Prod.mk.injEq] at h
                          rw [← h.2]
                          have hsc := buildModifyAction_scrub timeMs _ m pa mr1 hbm
                          have hsco : scrubOrder mr1.order = scrubOrder o :=
                            congrArg HyperliquidModifyRequest.order hsc
                          exact scrubExchangeAction_set_order req.action mr1.order o hord hsco
                  · rw [if_neg h9] at h
                    by_cases h10 : req.action.type = "modifyBatch"
                    · rw [if_pos h10] at h
                      cases hc : buildModifyBatchActions ctx timeMs (req.action.modifies.getD []) req.nonce with
                      | error err => rw [hc] at h; simp [Except.map] at h
                      | ok q =>
                        obtain ⟨infos2, mrs2⟩ := q
                        rw [hc] at h
                        simp only [Except.map, Except.ok.injEq, Prod.mk.injEq] at h
                        rw [← h.2]
                        exact scrubExchangeAction_set_modifies req.action mrs2
                          (buildModifyBatchActions_scrub ctx timeMs _ _ _ _ hc)
                    · rw [if_neg h10] at h
                      simp only [Except.ok.injEq, Prod.mk.injEq] at h
                      rw [← h.2]

/-- An order whose client id `"zz"` is not numeric: `BigInt("zz")` throws, so
`ensureClientId` replaces it with the decimal form of the hex byte hash
`0x7a7a = 31354`. -/
def zzOrderW : HyperliquidOrderRequest :=
  { a := some (.idx 0), b := true, p := "100", s := "1", r := false, t := none,
    c := some "zz" }

/-- An `order` exchange action carrying `zzOrderW`. -/
def zzActionW : HyperliquidExchangeAction :=
  { actionNone with
    type := "order"
    order := some zzOrderW }

/-- The `order` request whose client id the adapter rewrites. -/
def zzReqW : HyperliquidExchangeRequest :=
  { action := zzActionW, nonce := 7 }

/-- `zzReqW` as the adapter hands it back: the one change is
`order.c = "zz" ↦ "31354"`. -/
def zzMutReqW : HyperliquidExchangeRequest :=
  { zzReqW with
    action := { zzActionW with order := some { zzOrderW with c := some "31354" } } }

/-- The single envelope produced for `zzReqW` (client id 31354, price and
size scaled by the market decimals). -/
def zzEnvsW : List PermitEnvelopeV1 :=
  [envOfW (.Place 64 31354 0 100000000 (some 100000000) .GTC false none 0 none) 7]

/-- Counterexample for C7: the adapter does NOT leave its request argument
unchanged.  On an order whose client id `"zz"` is not numeric,
`ensureClientId` overwrites `order.c` with the decimal form of the byte hash
(`"31354"`), so the returned request differs from the input. -/
theorem adapter_mutates_request_cex :
    buildPermitEnvelopesFromExchangeRequest zzReqW ctxW 0 = .ok (zzEnvsW, zzMutReqW)
      ∧ zzMutReqW ≠ zzReqW :=
  ⟨by decide, by decide⟩

/-- C7 (amended): the adapter's mutation is confined to the order client-id
fields `c` (a missing or empty `c` is filled with the clock milliseconds, a
non-numeric `c` is replaced by its byte-hash integer in decimal); every other
field of the request is unchanged: on success, erasing the client-id fields
from the returned request and from the input request yields the same value.
Determinism with a fixed clock holds as the embedding is a function of
(request, context, time). -/
theorem adapter_mutates_only_client_ids (req : HyperliquidExchangeRequest)
    (ctx : HyperliquidPermitContext) (timeMs : Nat)
    (es : List PermitEnvelopeV1) (req1 : HyperliquidExchangeRequest)
    (hok : buildPermitEnvelopesFromExchangeRequest req ctx timeMs = .ok (es, req1)) :
    scrubRequest req1 = scrubRequest req := by
  simp only [buildPermitEnvelopesFromExchangeRequest] at hok
  cases hba : buildPermitActions req ctx timeMs with
  | error err => rw [hba] at hok; simp [Except.map] at hok
  | ok p =>
    obtain ⟨infos, action1⟩ := p
    rw [hba] at hok
    simp only [Except.map, Except.ok.injEq, Prod.mk.injEq] at hok
    rw [← hok.2]
    simp only [scrubRequest]
    rw [buildPermitActions_scrub req ctx timeMs infos action1 hba]

/-- Witness for C7: at the concrete mutated request, the scrubbed output
equals the scrubbed input. -/
theorem adapter_mutates_only_client_ids_witness :
    scrubRequest zzMutReqW = scrubRequest zzReqW :=
  adapter_mutates_only_client_ids zzReqW ctxW 0 zzEnvsW zzMutReqW (by decide)

end Permit
